import Mathlib

/-!
Verification of the vr-rogue level-generation engine against its
natural-language specification.

The definitions below are a shallow embedding of the TypeScript sources:

* `Array2D`      — src/Array2D.ts (column-major backing list, rc2ix / ix2rc);
* `Rectangle`    — src/Utils.ts (areaCoords, perimeterCoords, enlarge);
* `Tile`, `isValidDoor`, `RectangularRoom`, `TemplateRoom`,
  `lgCandidateOffsets` — src/LevelGeneration/ (tile lineage);
* `LCG`          — src/RandomNumberGenerator.ts;
* `PreDungeon`, hallways, `PDRectRoom`, `PDTemplateRoom`, `PDAfterRooms`
                 — src/PreDungeon/ (walkable-grid lineage).

JavaScript numbers that hold grid coordinates are modelled as `Int`
(all coordinate arithmetic in the sources is exact integer arithmetic);
array reads `data[ix]` are modelled as `Option`-valued lookups, `none`
standing for the `undefined` a JavaScript array returns outside its
backing store.  The random number generator is threaded through the
engine only to pick one element of a non-empty candidate list, so a
placement step is modelled with an explicit choice index, and the step
relation quantifies over that choice.
-/

namespace VRRogue

----------------------------------------------------------------------
-- Array2D (src/Array2D.ts)
----------------------------------------------------------------------

/-- Two-dimensional array of elements of type `E`, stored column-major in a
flat list, exactly as `Array2D<E>` keeps `data: E[]` with
`rc2ix(row, col) = col * height + row`. -/
structure Array2D (E : Type) where
  height : Nat
  width : Nat
  data : List E
  deriving Repr, DecidableEq

/-- Convert a row and column into a linear index into the data array
(`rc2ix`, src/Array2D.ts line 66). -/
def rc2ix (height : Nat) (row col : Int) : Int :=
  col * height + row

/-- Convert a linear index in the data array into a row and column
(`ix2rc`, src/Array2D.ts line 71): `col = Math.floor(ix / height)`,
`row = ix - col * height`. -/
def ix2rc (height : Nat) (ix : Int) : Int × Int :=
  let col := ix.fdiv height
  (ix - col * height, col)

namespace Array2D

variable {E : Type}

/-- `get(row, col)` returns `data[rc2ix(row, col)]` with no bounds check
(src/Array2D.ts line 45).  A linear index inside the backing store returns
that entry, anything else returns `undefined` (`none` here). -/
def get (a : Array2D E) (row col : Int) : Option E :=
  let ix := rc2ix a.height row col
  if 0 ≤ ix then a.data.get? ix.toNat else none

/-- `set(row, col, e)` assigns `data[rc2ix(row, col)] = e` with no bounds
check (src/Array2D.ts line 40).  The generator only ever writes linear
indices inside the backing store; a write outside it (which in JavaScript
would grow the array) leaves the array unchanged here. -/
def set (a : Array2D E) (row col : Int) (e : E) : Array2D E :=
  let ix := rc2ix a.height row col
  if 0 ≤ ix ∧ ix.toNat < a.data.length then
    { a with data := a.data.set ix.toNat e }
  else a

/-- `inBounds(y, x)` (src/Array2D.ts line 61). -/
def inBounds (a : Array2D E) (y x : Int) : Bool :=
  0 ≤ y && y < a.height && 0 ≤ x && x < a.width

/-- The backing store has exactly `height * width` entries, as
`new Array(height * width)` allocates. -/
def WF (a : Array2D E) : Prop :=
  a.data.length = a.height * a.width

/-- `Array2D.comprehension(height, width, f)` (src/Array2D.ts line 12)
fills every cell of a fresh array with `f(row, col)`; the resulting backing
store holds `f (ix2rc ix)` at each linear index `ix`. -/
def comprehension (height width : Nat) (f : Int → Int → E) : Array2D E :=
  { height := height, width := width,
    data := (List.range (height * width)).map
      (fun ix => f (ix2rc height (Int.ofNat ix)).1 (ix2rc height (Int.ofNat ix)).2) }

theorem set_height (a : Array2D E) (row col : Int) (e : E) :
    (a.set row col e).height = a.height := by
  unfold set; dsimp only; split <;> rfl

theorem set_width (a : Array2D E) (row col : Int) (e : E) :
    (a.set row col e).width = a.width := by
  unfold set; dsimp only; split <;> rfl

theorem set_data_length (a : Array2D E) (row col : Int) (e : E) :
    (a.set row col e).data.length = a.data.length := by
  unfold set; dsimp only; split
  · simp
  · rfl

theorem WF_set (a : Array2D E) (row col : Int) (e : E) (h : a.WF) :
    (a.set row col e).WF := by
  unfold WF at h ⊢
  rw [set_data_length, set_height, set_width]; exact h

theorem WF_comprehension (height width : Nat) (f : Int → Int → E) :
    (comprehension height width f).WF := by
  unfold WF comprehension
  simp only [List.length_map, List.length_range]

end Array2D

/-- On rows inside `[0, height)` the column-major index map is injective:
two coordinate pairs with the same linear index agree. -/
theorem rc2ix_inj {h : Nat} {r1 c1 r2 c2 : Int}
    (hr1 : 0 ≤ r1) (hr1h : r1 < h) (hr2 : 0 ≤ r2) (hr2h : r2 < h)
    (heq : rc2ix h r1 c1 = rc2ix h r2 c2) : r1 = r2 ∧ c1 = c2 := by
  unfold rc2ix at heq
  have hh : (0 : Int) < h := lt_of_le_of_lt hr1 hr1h
  have hmod : ∀ r c : Int, 0 ≤ r → r < h → (c * h + r) % (h : Int) = r := by
    intro r c hr hrh
    rw [mul_comm, add_comm, Int.add_mul_emod_self_left]
    exact Int.emod_eq_of_lt hr hrh
  have hr : r1 = r2 := by
    have h1 := hmod r1 c1 hr1 hr1h
    rw [heq, hmod r2 c2 hr2 hr2h] at h1
    exact h1.symm
  refine ⟨hr, ?_⟩
  have hc : c1 * (h : Int) = c2 * h := by omega
  exact mul_right_cancel₀ (by exact_mod_cast hh.ne') hc

/-- `ix2rc` inverts `rc2ix` on in-range coordinates. -/
theorem ix2rc_rc2ix {h : Nat} {row col : Int}
    (hr : 0 ≤ row) (hrh : row < h) :
    ix2rc h (rc2ix h row col) = (row, col) := by
  unfold ix2rc rc2ix
  have hh : (0 : Int) < h := lt_of_le_of_lt hr hrh
  have hfd : (col * h + row).fdiv h = (col * h + row) / h :=
    Int.fdiv_eq_ediv _ (by positivity)
  have hdiv : (col * h + row) / (h : Int) = col := by
    rw [add_comm, mul_comm, Int.add_mul_ediv_left _ _ hh.ne']
    rw [Int.ediv_eq_zero_of_lt hr hrh]
    omega
  dsimp only
  rw [hfd, hdiv]
  refine Prod.ext ?_ rfl
  dsimp only
  omega

namespace Array2D

variable {E : Type}

/-- An in-range write has linear index inside the backing store. -/
theorem rc2ix_lt {a : Array2D E} {row col : Int} (hwf : a.WF)
    (hr : 0 ≤ row) (hrh : row < a.height) (hc : 0 ≤ col) (hcw : col < a.width) :
    0 ≤ rc2ix a.height row col ∧ (rc2ix a.height row col).toNat < a.data.length := by
  unfold rc2ix
  have h1 : 0 ≤ col * (a.height : Int) + row := by positivity
  refine ⟨h1, ?_⟩
  have h2 : col * (a.height : Int) + row < a.height * a.width := by
    have : col * (a.height : Int) + row < (col + 1) * a.height := by nlinarith
    have hstep : (col + 1) * (a.height : Int) ≤ a.width * a.height := by
      have : col + 1 ≤ (a.width : Int) := by omega
      exact mul_le_mul_of_nonneg_right this (by positivity)
    nlinarith
  rw [hwf]
  omega

/-- An in-range `set` is a plain update of the backing store. -/
theorem set_of_inrange {a : Array2D E} {row col : Int} (e : E) (hwf : a.WF)
    (hr : 0 ≤ row) (hrh : row < a.height) (hc : 0 ≤ col) (hcw : col < a.width) :
    a.set row col e =
      { a with data := a.data.set (rc2ix a.height row col).toNat e } := by
  obtain ⟨hge, hlt⟩ := rc2ix_lt hwf hr hrh hc hcw
  unfold set
  dsimp only
  rw [if_pos ⟨hge, hlt⟩]

/-- How a bounds-respecting write shows up through `get`: the written linear
index reads back the new element, every other linear index is unchanged. -/
theorem get_set {a : Array2D E} {row col : Int} (e : E) (hwf : a.WF)
    (hr : 0 ≤ row) (hrh : row < a.height) (hc : 0 ≤ col) (hcw : col < a.width)
    (r c : Int) :
    (a.set row col e).get r c =
      if rc2ix a.height r c = rc2ix a.height row col then some e
      else a.get r c := by
  obtain ⟨hge, hlt⟩ := rc2ix_lt hwf hr hrh hc hcw
  rw [set_of_inrange e hwf hr hrh hc hcw]
  unfold get
  dsimp only
  by_cases hix : rc2ix a.height r c = rc2ix a.height row col
  · rw [if_pos hix, hix, if_pos hge]
    rw [List.get?_set_of_lt _ _ hlt, if_pos rfl]
  · rw [if_neg hix]
    by_cases hge2 : 0 ≤ rc2ix a.height r c
    · rw [if_pos hge2, if_pos hge2]
      by_cases hlt2 : (rc2ix a.height r c).toNat < a.data.length
      · rw [List.get?_set_of_lt _ _ hlt2]
        rw [if_neg (by omega)]
      · rw [List.get?_eq_none.2 (by rw [List.length_set]; omega),
          List.get?_eq_none.2 (by omega)]
    · rw [if_neg hge2, if_neg hge2]

/-- Reading back exactly the cell just written. -/
theorem get_set_same {a : Array2D E} {row col : Int} (e : E) (hwf : a.WF)
    (hr : 0 ≤ row) (hrh : row < a.height) (hc : 0 ≤ col) (hcw : col < a.width) :
    (a.set row col e).get row col = some e := by
  rw [get_set e hwf hr hrh hc hcw, if_pos rfl]

/-- A write at one in-range coordinate leaves every other in-range
coordinate unchanged. -/
theorem get_set_ne {a : Array2D E} {row col r c : Int} (e : E) (hwf : a.WF)
    (hr : 0 ≤ row) (hrh : row < a.height) (hc : 0 ≤ col) (hcw : col < a.width)
    (hr2 : 0 ≤ r) (hrh2 : r < a.height)
    (hne : (r, c) ≠ (row, col)) :
    (a.set row col e).get r c = a.get r c := by
  rw [get_set e hwf hr hrh hc hcw]
  rw [if_neg]
  intro hix
  exact hne (by
    obtain ⟨h1, h2⟩ := rc2ix_inj hr2 hrh2 hr hrh hix
    simp [h1, h2])

/-- A get at an in-range coordinate of a well-formed array always hits the
backing store. -/
theorem get_isSome {a : Array2D E} {row col : Int} (hwf : a.WF)
    (hr : 0 ≤ row) (hrh : row < a.height) (hc : 0 ≤ col) (hcw : col < a.width) :
    ∃ e, a.get row col = some e := by
  obtain ⟨hge, hlt⟩ := rc2ix_lt hwf hr hrh hc hcw
  refine ⟨a.data.get ⟨(rc2ix a.height row col).toNat, hlt⟩, ?_⟩
  unfold get
  dsimp only
  rw [if_pos hge]
  exact List.get?_eq_get hlt

end Array2D

----------------------------------------------------------------------
-- Rectangle (src/Utils.ts)
----------------------------------------------------------------------

/-- A rectangle: origin `(y, x)`, `height`, `width` (src/Utils.ts line 12).
The revision kept in src/Rectangle.ts (present only through its callers)
orders the constructor arguments `(height, width, y, x)` with origin
defaulting to `(0, 0)`; each call site below is embedded with the argument
order that revision uses. -/
structure Rectangle where
  y : Int
  x : Int
  height : Int
  width : Int
  deriving Repr, DecidableEq

namespace Rectangle

/-- `enlarge(heightDelta, widthDelta)` (src/Utils.ts line 24): grow the
rectangle, shifting the origin by minus half the delta so the growth is
centered.  `Math.floor` on a real quotient is floor division `fdiv`. -/
def enlarge (r : Rectangle) (heightDelta widthDelta : Int) : Rectangle :=
  { y := r.y - heightDelta.fdiv 2
    x := r.x - widthDelta.fdiv 2
    height := r.height + heightDelta
    width := r.width + widthDelta }

/-- `areaCoords()` (src/Utils.ts line 36): all cells of the rectangle in
row-major order. -/
def areaCoords (r : Rectangle) : List (Int × Int) :=
  (List.range r.height.toNat).flatMap fun (dy : Nat) =>
    (List.range r.width.toNat).map fun (dx : Nat) =>
      (r.y + (dy : Int), r.x + (dx : Int))

/-- `perimeterCoords(skip)` (src/Utils.ts line 50): border cells clockwise
from the top-left corner, each edge trimmed by `skip` cells at both ends —
top edge left to right, right edge top to bottom, bottom edge right to
left, left edge bottom to top. -/
def perimeterCoords (r : Rectangle) (skip : Int) : List (Int × Int) :=
  let miny := r.y
  let maxy := r.y + r.height - 1
  let minx := r.x
  let maxx := r.x + r.width - 1
  ((List.range (r.width - 2 * skip).toNat).map fun (i : Nat) =>
      (miny, minx + skip + (i : Int))) ++
  ((List.range (r.height - 2 * skip).toNat).map fun (i : Nat) =>
      (miny + skip + (i : Int), maxx)) ++
  ((List.range (r.width - 2 * skip).toNat).map fun (i : Nat) =>
      (maxy, maxx - skip - (i : Int))) ++
  ((List.range (r.height - 2 * skip).toNat).map fun (i : Nat) =>
      (maxy - skip - (i : Int), minx))

theorem mem_areaCoords {r : Rectangle} {p : Int × Int} :
    p ∈ r.areaCoords ↔
      r.y ≤ p.1 ∧ p.1 < r.y + r.height ∧ r.x ≤ p.2 ∧ p.2 < r.x + r.width := by
  unfold areaCoords
  simp only [List.mem_flatMap, List.mem_map, List.mem_range]
  constructor
  · rintro ⟨dy, hdy, dx, hdx, rfl⟩
    dsimp only
    omega
  · rintro ⟨h1, h2, h3, h4⟩
    refine ⟨(p.1 - r.y).toNat, by omega, (p.2 - r.x).toNat, by omega, ?_⟩
    refine Prod.ext ?_ ?_ <;> dsimp only <;> omega

theorem mem_perimeterCoords {r : Rectangle} {skip : Int} {p : Int × Int} :
    p ∈ r.perimeterCoords skip ↔
      ((p.1 = r.y ∧ r.x + skip ≤ p.2 ∧ p.2 ≤ r.x + r.width - 1 - skip) ∨
       (p.2 = r.x + r.width - 1 ∧
         r.y + skip ≤ p.1 ∧ p.1 ≤ r.y + r.height - 1 - skip) ∨
       (p.1 = r.y + r.height - 1 ∧
         r.x + skip ≤ p.2 ∧ p.2 ≤ r.x + r.width - 1 - skip) ∨
       (p.2 = r.x ∧ r.y + skip ≤ p.1 ∧ p.1 ≤ r.y + r.height - 1 - skip)) := by
  unfold perimeterCoords
  simp only [List.mem_append, List.mem_map, List.mem_range]
  constructor
  · rintro (((⟨i, hi, rfl⟩ | ⟨i, hi, rfl⟩) | ⟨i, hi, rfl⟩) | ⟨i, hi, rfl⟩) <;>
      dsimp only <;> omega
  · rintro (⟨h1, h2, h3⟩ | ⟨h1, h2, h3⟩ | ⟨h1, h2, h3⟩ | ⟨h1, h2, h3⟩)
    · refine Or.inl (Or.inl (Or.inl ⟨(p.2 - r.x - skip).toNat, by omega, ?_⟩))
      refine Prod.ext ?_ ?_ <;> dsimp only <;> omega
    · refine Or.inl (Or.inl (Or.inr ⟨(p.1 - r.y - skip).toNat, by omega, ?_⟩))
      refine Prod.ext ?_ ?_ <;> dsimp only <;> omega
    · refine Or.inl (Or.inr ⟨(r.x + r.width - 1 - skip - p.2).toNat, by omega, ?_⟩)
      refine Prod.ext ?_ ?_ <;> dsimp only <;> omega
    · refine Or.inr ⟨(r.y + r.height - 1 - skip - p.1).toNat, by omega, ?_⟩
      refine Prod.ext ?_ ?_ <;> dsimp only <;> omega

/-- Every perimeter cell (any skip at least 0) lies inside the rectangle,
provided the rectangle is non-degenerate. -/
theorem perimeter_subset_area {r : Rectangle} {skip : Int} {p : Int × Int}
    (hskip : 0 ≤ skip) (hh : 1 ≤ r.height) (hw : 1 ≤ r.width)
    (hp : p ∈ r.perimeterCoords skip) : p ∈ r.areaCoords := by
  rw [mem_perimeterCoords] at hp
  rw [mem_areaCoords]
  rcases hp with ⟨h1, h2, h3⟩ | ⟨h1, h2, h3⟩ | ⟨h1, h2, h3⟩ | ⟨h1, h2, h3⟩ <;> omega

end Rectangle

----------------------------------------------------------------------
-- Fold helpers
----------------------------------------------------------------------

/-- A property preserved by every step of a fold holds of the result. -/
theorem foldl_preserve {α β : Type} {P : β → Prop} {step : β → α → β}
    {l : List α} {b : β}
    (hstep : ∀ b2 a, a ∈ l → P b2 → P (step b2 a)) (hb : P b) :
    P (l.foldl step b) := by
  induction l generalizing b with
  | nil => exact hb
  | cons a l ih =>
    rw [List.foldl_cons]
    exact ih (fun b2 a2 ha2 => hstep b2 a2 (List.mem_cons_of_mem a ha2))
      (hstep b a (List.mem_cons_self a l) hb)

/-- Writing a constant value over a list of in-range cells leaves untouched
cells unchanged. -/
theorem get_foldl_set_not_mem {E : Type} (v : E) :
    ∀ (l : List (Int × Int)) (g : Array2D E), g.WF →
      (∀ p ∈ l, 0 ≤ p.1 ∧ p.1 < g.height ∧ 0 ≤ p.2 ∧ p.2 < g.width) →
      ∀ r c : Int, 0 ≤ r → r < g.height → (r, c) ∉ l →
      (l.foldl (fun g2 p => g2.set p.1 p.2 v) g).get r c = g.get r c
  | [], _, _, _, _, _, _, _, _ => rfl
  | p :: l, g, hwf, hin, r, c, hr, hrh, hnm => by
    have hp := hin p (List.mem_cons_self p l)
    have hdh := Array2D.set_height g p.1 p.2 v
    have hdw := Array2D.set_width g p.1 p.2 v
    have step := get_foldl_set_not_mem v l (g.set p.1 p.2 v)
      (Array2D.WF_set g p.1 p.2 v hwf)
      (fun q hq => by rw [hdh, hdw]; exact hin q (List.mem_cons_of_mem p hq))
      r c hr (by rw [hdh]; exact hrh)
      (fun hmem => hnm (List.mem_cons_of_mem p hmem))
    rw [List.foldl_cons, step]
    exact Array2D.get_set_ne v hwf hp.1 hp.2.1 hp.2.2.1 hp.2.2.2 hr hrh
      (fun he => hnm (he ▸ List.mem_cons_self p l))

/-- Writing a constant value over a list of in-range cells makes every
listed cell read back that value. -/
theorem get_foldl_set_mem {E : Type} (v : E) :
    ∀ (l : List (Int × Int)) (g : Array2D E), g.WF →
      (∀ p ∈ l, 0 ≤ p.1 ∧ p.1 < g.height ∧ 0 ≤ p.2 ∧ p.2 < g.width) →
      ∀ r c : Int, (r, c) ∈ l →
      (l.foldl (fun g2 p => g2.set p.1 p.2 v) g).get r c = some v
  | [], _, _, _, _, _, hm => absurd hm (List.not_mem_nil _)
  | p :: l, g, hwf, hin, r, c, hm => by
    have hp := hin p (List.mem_cons_self p l)
    have hdh := Array2D.set_height g p.1 p.2 v
    have hdw := Array2D.set_width g p.1 p.2 v
    have hwf2 := Array2D.WF_set g p.1 p.2 v hwf
    have hin2 : ∀ q ∈ l, 0 ≤ q.1 ∧ q.1 < (g.set p.1 p.2 v).height ∧
        0 ≤ q.2 ∧ q.2 < (g.set p.1 p.2 v).width := by
      intro q hq; rw [hdh, hdw]; exact hin q (List.mem_cons_of_mem p hq)
    rw [List.foldl_cons]
    by_cases hmem : (r, c) ∈ l
    · exact get_foldl_set_mem v l (g.set p.1 p.2 v) hwf2 hin2 r c hmem
    · have hrc : (r, c) = p := by
        rcases List.mem_cons.1 hm with h | h
        · exact h
        · exact absurd h hmem
      subst hrc
      rw [get_foldl_set_not_mem v l (g.set r c v) hwf2 hin2 r c hp.1
        (by rw [hdh]; exact hp.2.1) hmem]
      exact Array2D.get_set_same v hwf hp.1 hp.2.1 hp.2.2.1 hp.2.2.2

/-- Folded in-range writes keep the dimensions and well-formedness. -/
theorem foldl_set_dims {E : Type} (v : E) (l : List (Int × Int))
    (g : Array2D E) :
    (l.foldl (fun g2 p => g2.set p.1 p.2 v) g).height = g.height ∧
    (l.foldl (fun g2 p => g2.set p.1 p.2 v) g).width = g.width := by
  induction l generalizing g with
  | nil => exact ⟨rfl, rfl⟩
  | cons p l ih =>
    rw [List.foldl_cons]
    obtain ⟨h1, h2⟩ := ih (g.set p.1 p.2 v)
    rw [h1, h2, Array2D.set_height, Array2D.set_width]
    exact ⟨rfl, rfl⟩

theorem foldl_set_WF {E : Type} (v : E) (l : List (Int × Int))
    (g : Array2D E) (hwf : g.WF) :
    (l.foldl (fun g2 p => g2.set p.1 p.2 v) g).WF := by
  induction l generalizing g with
  | nil => exact hwf
  | cons p l ih =>
    rw [List.foldl_cons]
    exact ih (g.set p.1 p.2 v) (Array2D.WF_set g p.1 p.2 v hwf)

----------------------------------------------------------------------
-- Tiles and the LevelGeneration lineage
----------------------------------------------------------------------

/-- Tile kinds (`enum Tile {Empty, Floor, Wall, Door}` in src/Level.ts).
The component-based revision of src/Tile.ts builds the same four cell
states from components — `makeFloor` attaches `FloorComponent`, `makeDoor`
`DoorComponent`, `makeWall` `WallComponent`, and `new Tile()` none — so
`hasComponent(FloorComponent)` on that model is `= Tile.Floor` here, and
the enumerated kind is used throughout. -/
inductive Tile
  | Empty
  | Floor
  | Wall
  | Door
  deriving Repr, DecidableEq

/-- A level grid: `Array2D<Tile>`. -/
abbrev TileGrid := Array2D Tile

/-- `isValidDoor(tiles, y, x)` (src/LevelGeneration/LevelGeneration.ts
line 183): at least one of the four orthogonal neighbors, each read only
behind its grid-edge guard, holds a floor tile. -/
def isValidDoor (tiles : TileGrid) (y x : Int) : Bool :=
  (decide (0 < y) && (tiles.get (y - 1) x == some Tile.Floor)) ||
  (decide (y < (tiles.height : Int) - 1) && (tiles.get (y + 1) x == some Tile.Floor)) ||
  (decide (0 < x) && (tiles.get y (x - 1) == some Tile.Floor)) ||
  (decide (x < (tiles.width : Int) - 1) && (tiles.get y (x + 1) == some Tile.Floor))

/-- `RectangularRoom(height, width)`
(src/LevelGeneration/RectangularRoom.ts). -/
structure RectangularRoom where
  height : Int
  width : Int
  deriving Repr, DecidableEq

namespace RectangularRoom

/-- `canPlaceAt` of the Rectangle revision
(src/LevelGeneration/RectangularRoom.ts lines 96-116): the bounding box
must not overlap any existing Floor or Door tile, and at least one
non-corner perimeter cell must be a valid door. -/
def canPlaceAt (room : RectangularRoom) (tiles : TileGrid)
    (py px : Int) : Bool :=
  let rect : Rectangle := ⟨py, px, room.height, room.width⟩
  (rect.areaCoords.all fun c =>
    !(tiles.get c.1 c.2 == some Tile.Floor) &&
    !(tiles.get c.1 c.2 == some Tile.Door)) &&
  ((rect.perimeterCoords 1).any fun c => isValidDoor tiles c.1 c.2)

/-- `canPlaceAt` of the revisions at lines 18-31 and 180-194 of the same
file: identical, except that the overlap scan rejects only Floor tiles. -/
def canPlaceAtFloorOnly (room : RectangularRoom) (tiles : TileGrid)
    (py px : Int) : Bool :=
  let rect : Rectangle := ⟨py, px, room.height, room.width⟩
  (rect.areaCoords.all fun c => !(tiles.get c.1 c.2 == some Tile.Floor)) &&
  ((rect.perimeterCoords 1).any fun c => isValidDoor tiles c.1 c.2)

/-- The `validDoors` list `placeAt` collects: the non-corner perimeter
cells that are valid doors of the grid once the walls of this room are
placed. -/
def validDoorsAt (room : RectangularRoom) (tiles : TileGrid)
    (py px : Int) : List (Int × Int) :=
  let rect : Rectangle := ⟨py, px, room.height, room.width⟩
  let t1 := (rect.perimeterCoords 0).foldl
    (fun g c => g.set c.1 c.2 Tile.Wall) tiles
  (rect.perimeterCoords 1).filter fun c => isValidDoor t1 c.1 c.2

/-- `placeAt` (src/LevelGeneration/RectangularRoom.ts lines 118-145; the
revisions agree): wall the full perimeter, collect the valid doors among
the non-corner perimeter cells of the walled grid, open the one
`randomChoice` picks (`doorIx` stands for the index the random draw
denotes) when any exists, then floor the bounding box shrunk centered by
(-2, -2). -/
def placeAt (room : RectangularRoom) (doorIx : Nat) (tiles : TileGrid)
    (py px : Int) : TileGrid :=
  let rect : Rectangle := ⟨py, px, room.height, room.width⟩
  let t1 := (rect.perimeterCoords 0).foldl
    (fun g c => g.set c.1 c.2 Tile.Wall) tiles
  let validDoors := room.validDoorsAt tiles py px
  let t2 := if validDoors.isEmpty then t1
    else
      let d := validDoors.getD doorIx (0, 0)
      t1.set d.1 d.2 Tile.Door
  (rect.enlarge (-2) (-2)).areaCoords.foldl
    (fun g c => g.set c.1 c.2 Tile.Floor) t2

end RectangularRoom

/-- `TemplateRoom` of the enumerated-tile revision
(src/LevelGeneration/TemplateRoom.ts lines 165-225): a room described by a
small tile array. -/
structure TemplateRoom where
  tiles : TileGrid
  deriving Repr, DecidableEq

namespace TemplateRoom

/-- `canPlaceAt` (lines 176-193): no non-empty template cell may land on an
existing Floor or Door tile, and at least one template Door cell must be a
valid door.  The source computes both facts in one scan with an early
false; as a pure predicate that is the conjunction below. -/
def canPlaceAt (room : TemplateRoom) (tiles : TileGrid)
    (py px : Int) : Bool :=
  let roomRect : Rectangle := ⟨0, 0, room.tiles.height, room.tiles.width⟩
  (roomRect.areaCoords.all fun c =>
    !(!(room.tiles.get c.1 c.2 == some Tile.Empty) &&
      ((tiles.get (c.1 + py) (c.2 + px) == some Tile.Floor) ||
       (tiles.get (c.1 + py) (c.2 + px) == some Tile.Door)))) &&
  (roomRect.areaCoords.any fun c =>
    (room.tiles.get c.1 c.2 == some Tile.Door) &&
    isValidDoor tiles (c.1 + py) (c.2 + px))

/-- `placeAt` (lines 195-224): first pass walls and doors — a template Wall
cell writes Wall, a template Door cell writes Door when it is a valid door
on the evolving grid and Wall otherwise; second pass writes the template
Floor cells, so the doors of this very placement are never validated
against its own floors. -/
def placeAt (room : TemplateRoom) (tiles : TileGrid)
    (py px : Int) : TileGrid :=
  let roomRect : Rectangle := ⟨0, 0, room.tiles.height, room.tiles.width⟩
  let t1 := roomRect.areaCoords.foldl (fun g c =>
    if room.tiles.get c.1 c.2 == some Tile.Wall then
      g.set (c.1 + py) (c.2 + px) Tile.Wall
    else if room.tiles.get c.1 c.2 == some Tile.Door then
      (if isValidDoor g (c.1 + py) (c.2 + px) then
        g.set (c.1 + py) (c.2 + px) Tile.Door
      else
        g.set (c.1 + py) (c.2 + px) Tile.Wall)
    else g) tiles
  roomRect.areaCoords.foldl (fun g c =>
    if room.tiles.get c.1 c.2 == some Tile.Floor then
      g.set (c.1 + py) (c.2 + px) Tile.Floor
    else g) t1

end TemplateRoom

/-- The candidate offsets `LevelGenerator.addRoom` enumerates
(src/LevelGeneration/LevelGeneration.ts lines 140-148):
`for (y = 0; y + r.height() < tiles.height; y++)` nested with
`for (x = 0; x + r.width() < tiles.width; x++)`. -/
def lgCandidateOffsets (roomHeight roomWidth : Int)
    (gridHeight gridWidth : Nat) : List (Int × Int) :=
  (List.range ((gridHeight : Int) - roomHeight).toNat).flatMap fun (y : Nat) =>
    (List.range ((gridWidth : Int) - roomWidth).toNat).map fun (x : Nat) =>
      ((y : Int), (x : Int))

/-- The candidate offsets `PreDungeonGen.addRoom` enumerates
(src/PreDungeon/PreDungeonGen.ts lines 196-206):
`new Rectangle(predungeon.height() - r.height(), predungeon.width() -
r.width())` — the two-argument Rectangle constructor places the rectangle
at the origin — then `areaCoords()`. -/
def pdCandidateOffsets (roomHeight roomWidth : Int)
    (gridHeight gridWidth : Nat) : List (Int × Int) :=
  (Rectangle.mk 0 0 ((gridHeight : Int) - roomHeight)
    ((gridWidth : Int) - roomWidth)).areaCoords

theorem mem_lgCandidateOffsets {roomHeight roomWidth : Int}
    {gridHeight gridWidth : Nat} {y x : Int} :
    (y, x) ∈ lgCandidateOffsets roomHeight roomWidth gridHeight gridWidth ↔
      0 ≤ y ∧ y + roomHeight < gridHeight ∧
      0 ≤ x ∧ x + roomWidth < gridWidth := by
  unfold lgCandidateOffsets
  simp only [List.mem_flatMap, List.mem_map, List.mem_range]
  constructor
  · rintro ⟨dy, hdy, dx, hdx, heq⟩
    have h1 : (dy : Int) = y := congrArg Prod.fst heq
    have h2 : (dx : Int) = x := congrArg Prod.snd heq
    omega
  · rintro ⟨h1, h2, h3, h4⟩
    refine ⟨y.toNat, by omega, x.toNat, by omega, ?_⟩
    refine Prod.ext ?_ ?_ <;> dsimp only <;> omega

theorem mem_pdCandidateOffsets {roomHeight roomWidth : Int}
    {gridHeight gridWidth : Nat} {y x : Int} :
    (y, x) ∈ pdCandidateOffsets roomHeight roomWidth gridHeight gridWidth ↔
      0 ≤ y ∧ y + roomHeight < gridHeight ∧
      0 ≤ x ∧ x + roomWidth < gridWidth := by
  unfold pdCandidateOffsets
  rw [Rectangle.mem_areaCoords]
  dsimp only
  omega

----------------------------------------------------------------------
-- LCG (src/RandomNumberGenerator.ts)
----------------------------------------------------------------------

/-- One call to `LCG.next()` (src/RandomNumberGenerator.ts lines 13-22).
The modulus constant in the source is the literal `2147483648`, which is
2 to the 31st power, although the adjacent comment reads `// = 2^32`.
JavaScript `%` on integers is remainder truncated toward zero
(`Int.tmod`); the method stores the new seed and returns it divided by the
modulus, an exact rational here. -/
def lcgNext (seed : Int) : Int × Rat :=
  let m : Int := 2147483648
  let a : Int := 1664525
  let c : Int := 1013904223
  let seed2 := (seed * a + c).tmod m
  (seed2, (seed2 : Rat) / (m : Rat))

----------------------------------------------------------------------
-- PreDungeon lineage (src/PreDungeon/)
----------------------------------------------------------------------

/-- A pre-dungeon (src/PreDungeon/PreDungeonGen.ts lines 39-95): a grid of
walkable flags. -/
structure PreDungeon where
  walkable : Array2D Bool
  deriving Repr, DecidableEq

namespace PreDungeon

/-- The constructor `new PreDungeon(height, width)` fills the grid with
walls (`false`). -/
def make (height width : Nat) : PreDungeon :=
  ⟨⟨height, width, List.replicate (height * width) false⟩⟩

def height (pd : PreDungeon) : Nat := pd.walkable.height

def width (pd : PreDungeon) : Nat := pd.walkable.width

/-- `isFloor(y, x)` reads the walkable flag; a read outside the backing
store yields `undefined`, which is falsy wherever the flag is used. -/
def isFloor (pd : PreDungeon) (y x : Int) : Bool :=
  (pd.walkable.get y x).getD false

def setFloor (pd : PreDungeon) (y x : Int) : PreDungeon :=
  ⟨pd.walkable.set y x true⟩

def inBounds (pd : PreDungeon) (y x : Int) : Bool :=
  pd.walkable.inBounds y x

/-- `isFloorAdjacent(y, x)` (src/PreDungeon/PreDungeonGen.ts lines 87-94),
embedded exactly as written: the south test guards with
`y < this.height()` — not `height() - 1` like the matching west/east
guards — so on the bottom row it reads `isFloor(height(), x)`, a
coordinate outside the grid. -/
def isFloorAdjacent (pd : PreDungeon) (y x : Int) : Bool :=
  (decide (0 < y) && pd.isFloor (y - 1) x) ||
  (decide (y < (pd.height : Int)) && pd.isFloor (y + 1) x) ||
  (decide (0 < x) && pd.isFloor y (x - 1)) ||
  (decide (x < (pd.width : Int) - 1) && pd.isFloor y (x + 1))

/-- The grid has exactly `height * width` backing entries. -/
def WF (pd : PreDungeon) : Prop := pd.walkable.WF

end PreDungeon

----------------------------------------------------------------------
-- Hallways (src/PreDungeon/Hallways.ts, kept at the end of
-- src/PreDungeon/TemplateRoom.ts)
----------------------------------------------------------------------

/-- The position reached after `n` unit steps of `dir` from `(y, x)`. -/
def rayPos (y x : Int) (dir : Int × Int) (n : Nat) : Int × Int :=
  (y + n * dir.1, x + n * dir.2)

/-- The loop of `hallrayLength` with explicit fuel: while in bounds, stop
with the step count at the first floor-adjacent position; leaving the grid
returns Infinity (`none`).  The source walks a `while` loop; along any of
the four unit directions it leaves the grid within `height + width` steps,
so the fuel used by `hallrayLength` below never runs out (running out also
returns `none`). -/
def hallrayLengthFuel (pd : PreDungeon) (dir : Int × Int) :
    Nat → Int → Int → Option Nat
  | 0, _, _ => none
  | fuel + 1, y, x =>
    if pd.inBounds y x then
      if pd.isFloorAdjacent y x then some 0
      else (hallrayLengthFuel pd dir fuel (y + dir.1) (x + dir.2)).map (· + 1)
    else none

/-- `hallrayLength(predungeon, y, x, dir)` (src/PreDungeon/TemplateRoom.ts
lines 169-183): the number of steps to the first floor-adjacent position
of the ray, `none` (Infinity) when the ray leaves the grid first. -/
def hallrayLength (pd : PreDungeon) (y x : Int) (dir : Int × Int) :
    Option Nat :=
  hallrayLengthFuel pd dir (pd.height + pd.width + 1) y x

/-- `isValidHallray` (lines 189-197): `hallrayLength(...) < maxLength`,
where Infinity compares false. -/
def isValidHallray (pd : PreDungeon) (y x : Int) (dir : Int × Int)
    (maxLength : Int) : Bool :=
  match hallrayLength pd y x dir with
  | some n => decide ((n : Int) < maxLength)
  | none => false

/-- `placeHallray` (lines 202-214): floor every cell from `(y, x)` to
`(y, x) + length * dir`, inclusive. -/
def placeHallray (pd : PreDungeon) (y x : Int) (dir : Int × Int)
    (length : Nat) : PreDungeon :=
  ((List.range (length + 1)).map fun (step : Nat) =>
    (y + step * dir.1, x + step * dir.2)).foldl
    (fun pd2 c => pd2.setFloor c.1 c.2) pd

----------------------------------------------------------------------
-- PreDungeon rooms
----------------------------------------------------------------------

/-- `getHallwayDir(rect, c)` (src/PreDungeon/RectangleRoom.ts lines 12-22):
the outward normal of the rectangle edge holding `c`, tried top, bottom,
left, right in that order.  Off every edge the source returns `undefined`;
call sites only ask about perimeter cells, where one branch always fires,
and `(0, 0)` stands in for the impossible fall-through. -/
def getHallwayDir (rect : Rectangle) (c : Int × Int) : Int × Int :=
  if c.1 = rect.y then (-1, 0)
  else if c.1 = rect.y + rect.height - 1 then (1, 0)
  else if c.2 = rect.x then (0, -1)
  else if c.2 = rect.x + rect.width - 1 then (0, 1)
  else (0, 0)

/-- `RectangleRoom(height, width, maxHallwayLength)`
(src/PreDungeon/RectangleRoom.ts lines 31-96). -/
structure PDRectRoom where
  height : Int
  width : Int
  maxHallwayLength : Int
  deriving Repr, DecidableEq

namespace PDRectRoom

/-- `canPlaceAt` (lines 50-68): no cell of the bounding rectangle may
already be floor, and at least one non-corner perimeter cell must start a
valid hallray along its outward normal.  The source builds
`new Rectangle(height, width, py, px)` — the Rectangle.ts argument order —
that is, the rectangle at origin `(py, px)`. -/
def canPlaceAt (room : PDRectRoom) (pd : PreDungeon)
    (py px : Int) : Bool :=
  let rect : Rectangle := ⟨py, px, room.height, room.width⟩
  (rect.areaCoords.all fun c => !(pd.isFloor c.1 c.2)) &&
  ((rect.perimeterCoords 1).any fun c =>
    isValidHallray pd c.1 c.2 (getHallwayDir rect c) room.maxHallwayLength)

/-- `placeAt` (lines 70-95): collect the valid hallway starts among the
non-corner perimeter cells; if any, pick the one `randomChoice` denotes
(`hallIx`), ray-cast its length and lay the hallway; then floor the
bounding box shrunk centered by (-2, -2). -/
def placeAt (room : PDRectRoom) (hallIx : Nat) (pd : PreDungeon)
    (py px : Int) : PreDungeon :=
  let rect : Rectangle := ⟨py, px, room.height, room.width⟩
  let starts := (rect.perimeterCoords 1).filter fun c =>
    isValidHallray pd c.1 c.2 (getHallwayDir rect c) room.maxHallwayLength
  let pd1 :=
    if starts.isEmpty then pd
    else
      let c := starts.getD hallIx (0, 0)
      let dir := getHallwayDir rect c
      match hallrayLength pd c.1 c.2 dir with
      | some len => placeHallray pd c.1 c.2 dir len
      | none => pd
  (rect.enlarge (-2) (-2)).areaCoords.foldl
    (fun pd2 c => pd2.setFloor c.1 c.2) pd1

end PDRectRoom

/-- Template tiles of the hallway-capable template rooms
(src/PreDungeon/TemplateRoom.ts lines 10-18). -/
inductive TemplateTile
  | Empty
  | Wall
  | Floor
  | HallwayNorth
  | HallwaySouth
  | HallwayWest
  | HallwayEast
  deriving Repr, DecidableEq

/-- `getHallwayDir(t)` (src/PreDungeon/TemplateRoom.ts lines 20-31); only
queried under `isHallway`, `(0, 0)` stands in for the `undefined` of the
non-hallway cases. -/
def templateHallwayDir : TemplateTile → Int × Int
  | TemplateTile.HallwayNorth => (-1, 0)
  | TemplateTile.HallwaySouth => (1, 0)
  | TemplateTile.HallwayWest => (0, -1)
  | TemplateTile.HallwayEast => (0, 1)
  | _ => (0, 0)

/-- `isHallway(t)` (lines 33-40). -/
def isHallwayTile : TemplateTile → Bool
  | TemplateTile.HallwayNorth => true
  | TemplateTile.HallwaySouth => true
  | TemplateTile.HallwayWest => true
  | TemplateTile.HallwayEast => true
  | _ => false

/-- `TemplateRoom` of the pre-dungeon lineage
(src/PreDungeon/TemplateRoom.ts lines 93-161). -/
structure PDTemplateRoom where
  tiles : Array2D TemplateTile
  maxHallwayLength : Int
  deriving Repr, DecidableEq

namespace PDTemplateRoom

/-- `canPlaceAt` (lines 111-130): no non-empty template tile may land on a
walkable cell, and at least one hallway cell must start a valid hallray in
its direction. -/
def canPlaceAt (room : PDTemplateRoom) (pd : PreDungeon)
    (py px : Int) : Bool :=
  let rect : Rectangle := ⟨0, 0, room.tiles.height, room.tiles.width⟩
  (rect.areaCoords.all fun c =>
    !(!(room.tiles.get c.1 c.2 == some TemplateTile.Empty) &&
      pd.isFloor (c.1 + py) (c.2 + px))) &&
  (rect.areaCoords.any fun c =>
    match room.tiles.get c.1 c.2 with
    | some t =>
        isHallwayTile t &&
        isValidHallray pd (c.1 + py) (c.2 + px) (templateHallwayDir t)
          room.maxHallwayLength
    | none => false)

/-- `placeAt` (lines 132-160): first pass lays every hallway whose ray is
valid against the evolving pre-dungeon; second pass floors the template
Floor cells. -/
def placeAt (room : PDTemplateRoom) (pd : PreDungeon)
    (py px : Int) : PreDungeon :=
  let rect : Rectangle := ⟨0, 0, room.tiles.height, room.tiles.width⟩
  let pd1 := rect.areaCoords.foldl (fun pd2 c =>
    match room.tiles.get c.1 c.2 with
    | some t =>
        if isHallwayTile t then
          let dir := templateHallwayDir t
          if isValidHallray pd2 (c.1 + py) (c.2 + px) dir
              room.maxHallwayLength then
            match hallrayLength pd2 (c.1 + py) (c.2 + px) dir with
            | some len => placeHallray pd2 (c.1 + py) (c.2 + px) dir len
            | none => pd2
          else pd2
        else pd2
    | none => pd2) pd
  rect.areaCoords.foldl (fun pd2 c =>
    if room.tiles.get c.1 c.2 == some TemplateTile.Floor then
      pd2.setFloor (c.1 + py) (c.2 + px)
    else pd2) pd1

end PDTemplateRoom

/-- The two room shapes the pre-dungeon room generators construct. -/
inductive PDRoom
  | rect (room : PDRectRoom)
  | templ (room : PDTemplateRoom)
  deriving Repr, DecidableEq

namespace PDRoom

def height : PDRoom → Int
  | rect room => room.height
  | templ room => room.tiles.height

def width : PDRoom → Int
  | rect room => room.width
  | templ room => room.tiles.width

def canPlaceAt : PDRoom → PreDungeon → Int → Int → Bool
  | rect room => room.canPlaceAt
  | templ room => room.canPlaceAt

/-- Placement; `choiceIx` is the index `randomChoice` denotes for the
rooms that draw one (the template rooms ignore their `rng` argument). -/
def placeAt : PDRoom → Nat → PreDungeon → Int → Int → PreDungeon
  | rect room => room.placeAt
  | templ room => fun _ => room.placeAt

end PDRoom

----------------------------------------------------------------------
-- The pre-dungeon generation step relation
-- (PreDungeonGen.generate / addRoom, src/PreDungeon/PreDungeonGen.ts
-- lines 173-215)
----------------------------------------------------------------------

/-- The states `PreDungeonGen.generate(height=cfgHeight, width=cfgWidth)`
can reach after each room slot, for any room generators, weights and
random draws: the initial grid is `new PreDungeon(this.width, this.height)`
(line 174, arguments in that order); room slot 0 is force-placed at any
enumerated offset with no validity check; every later slot places a room
at an enumerated offset its `canPlaceAt` accepted, or is skipped.
`choice` ranges over the indices a random draw can denote. -/
inductive PDAfterRooms (cfgHeight cfgWidth : Nat) :
    Nat → PreDungeon → Prop
  | start : PDAfterRooms cfgHeight cfgWidth 0
      (PreDungeon.make cfgWidth cfgHeight)
  | forced (r : PDRoom) (choice : Nat) (pos : Int × Int) {pd : PreDungeon} :
      PDAfterRooms cfgHeight cfgWidth 0 pd →
      pos ∈ pdCandidateOffsets r.height r.width pd.height pd.width →
      PDAfterRooms cfgHeight cfgWidth 1 (r.placeAt choice pd pos.1 pos.2)
  | placed (r : PDRoom) (choice : Nat) (pos : Int × Int) {n : Nat}
      {pd : PreDungeon} :
      PDAfterRooms cfgHeight cfgWidth (n + 1) pd →
      pos ∈ pdCandidateOffsets r.height r.width pd.height pd.width →
      r.canPlaceAt pd pos.1 pos.2 = true →
      PDAfterRooms cfgHeight cfgWidth (n + 2) (r.placeAt choice pd pos.1 pos.2)
  | skipped {n : Nat} {pd : PreDungeon} :
      PDAfterRooms cfgHeight cfgWidth (n + 1) pd →
      PDAfterRooms cfgHeight cfgWidth (n + 2) pd

----------------------------------------------------------------------
-- Connectivity vocabulary
----------------------------------------------------------------------

/-- One 4-directional step between walkable cells of a pre-dungeon (a
walkable cell is an in-bounds grid cell holding floor). -/
def pdAdjStep (pd : PreDungeon) (a b : Int × Int) : Prop :=
  pd.inBounds a.1 a.2 = true ∧ pd.inBounds b.1 b.2 = true ∧
  pd.isFloor a.1 a.2 = true ∧ pd.isFloor b.1 b.2 = true ∧
    (b = (a.1 + 1, a.2) ∨ b = (a.1 - 1, a.2) ∨
     b = (a.1, a.2 + 1) ∨ b = (a.1, a.2 - 1))

/-- Every walkable cell reaches every other through 4-directional walkable
steps. -/
def pdConnected (pd : PreDungeon) : Prop :=
  ∀ a b : Int × Int,
    pd.inBounds a.1 a.2 = true → pd.isFloor a.1 a.2 = true →
    pd.inBounds b.1 b.2 = true → pd.isFloor b.1 b.2 = true →
    Relation.ReflTransGen (pdAdjStep pd) a b

/-- `inBounds` decides exactly the coordinate ranges. -/
theorem array2d_inBounds_iff {E : Type} {a : Array2D E} {y x : Int} :
    a.inBounds y x = true ↔
      0 ≤ y ∧ y < a.height ∧ 0 ≤ x ∧ x < a.width := by
  unfold Array2D.inBounds
  simp [Bool.and_eq_true, decide_eq_true_eq, and_assoc]

----------------------------------------------------------------------
-- C10: the index maps are mutually inverse; set/get behave pointwise
----------------------------------------------------------------------

/-- C10: for every height `h > 0` (forced by `row < h`) and in-range
`(row, col)`, `ix2rc (rc2ix row col) = (row, col)`; `rc2ix` is injective
on in-range coordinates; and on any well-formed `Array2D` of those
dimensions a `set` at `(row, col)` makes `get` there read the new element
while every other in-range cell reads as before. -/
theorem array2d_index_roundtrip_set_get (E : Type) (h w : Nat)
    (row col : Int)
    (hr : 0 ≤ row) (hrh : row < h) (hc : 0 ≤ col) (hcw : col < w) :
    ix2rc h (rc2ix h row col) = (row, col) ∧
    (∀ r2 c2 : Int, 0 ≤ r2 → r2 < h →
      rc2ix h r2 c2 = rc2ix h row col → (r2, c2) = (row, col)) ∧
    (∀ (a : Array2D E) (e : E), a.WF → a.height = h → a.width = w →
      (a.set row col e).get row col = some e ∧
      (∀ r2 c2 : Int, 0 ≤ r2 → r2 < h → (r2, c2) ≠ (row, col) →
        (a.set row col e).get r2 c2 = a.get r2 c2)) := by
  refine ⟨ix2rc_rc2ix hr hrh, ?_, ?_⟩
  · intro r2 c2 h1 h2 heq
    obtain ⟨e1, e2⟩ := rc2ix_inj h1 h2 hr hrh heq
    rw [e1, e2]
  · intro a e hwf hh hw
    subst hh; subst hw
    refine ⟨Array2D.get_set_same e hwf hr hrh hc hcw, ?_⟩
    intro r2 c2 h1 h2 hne
    exact Array2D.get_set_ne e hwf hr hrh hc hcw h1 h2 hne

/-- Witness for C10 at height 2, width 2, cell (1, 0) of a concrete
array. -/
theorem array2d_index_roundtrip_set_get_witness :
    ix2rc 2 (rc2ix 2 1 0) = (1, 0) ∧
    ((⟨2, 2, [10, 20, 30, 40]⟩ : Array2D Nat).set 1 0 99).get 1 0 =
      some 99 ∧
    ((⟨2, 2, [10, 20, 30, 40]⟩ : Array2D Nat).set 1 0 99).get 0 1 =
      (⟨2, 2, [10, 20, 30, 40]⟩ : Array2D Nat).get 0 1 := by
  have h := array2d_index_roundtrip_set_get Nat 2 2 1 0
    (by decide) (by decide) (by decide) (by decide)
  obtain ⟨h1, -, h3⟩ := h
  obtain ⟨h4, h5⟩ := h3 ⟨2, 2, [10, 20, 30, 40]⟩ 99 rfl rfl rfl
  exact ⟨h1, h4, h5 0 1 (by decide) (by decide) (by decide)⟩

----------------------------------------------------------------------
-- C9: Array2D.get / Array2D.set are not bounds-checked
----------------------------------------------------------------------

/-- A concrete 2 by 2 array with four distinct entries. -/
def arr9 : Array2D Nat := ⟨2, 2, [10, 20, 30, 40]⟩

/-- C9, counterexample: the access `get(2, 0)` is out of bounds, yet it is
not rejected — it returns the value stored at the in-range cell (0, 1),
because `rc2ix(2, 0) = 2 = rc2ix(0, 1)` in the column-major store. -/
theorem array2d_get_out_of_bounds_not_rejected :
    arr9.inBounds 2 0 = false ∧
    arr9.get 2 0 ≠ none ∧
    arr9.get 2 0 = some 30 ∧
    arr9.get 0 1 = some 30 := by decide

/-- C9, amended: no access is bounds-checked; whenever the linear index of
an out-of-bounds `(row, col)` still lands inside the backing store, `get`
silently reads some other, in-range cell (and `set` would likewise write
it); `inBounds` is the only bounds test and callers must apply it. -/
theorem array2d_out_of_bounds_aliases (E : Type) (a : Array2D E)
    (row col : Int) (hwf : a.WF)
    (hnb : a.inBounds row col = false)
    (hge : 0 ≤ rc2ix a.height row col)
    (hlt : (rc2ix a.height row col).toNat < a.data.length) :
    ∃ r2 c2 : Int, a.inBounds r2 c2 = true ∧ (r2, c2) ≠ (row, col) ∧
      a.get row col = a.get r2 c2 := by
  have hlen : 0 < a.data.length := Nat.pos_of_ne_zero (by omega)
  have hmul : 0 < a.height * a.width := by
    unfold Array2D.WF at hwf; omega
  have hpos : 0 < a.height ∧ 0 < a.width := by
    rcases Nat.eq_zero_or_pos a.height with h0 | h1
    · rw [h0] at hmul; simp at hmul
    rcases Nat.eq_zero_or_pos a.width with h0 | h2
    · rw [h0] at hmul; simp at hmul
    exact ⟨h1, h2⟩
  have hh : (0 : Int) < a.height := by exact_mod_cast hpos.1
  set ix := rc2ix a.height row col with hix
  have hixlt : ix < (a.height : Int) * a.width := by
    unfold Array2D.WF at hwf
    have : (ix.toNat : Int) < (a.data.length : Int) := by exact_mod_cast hlt
    push_cast [hwf] at this
    omega
  set q := ix / (a.height : Int) with hq
  have hfd : ix.fdiv a.height = q := Int.fdiv_eq_ediv _ (le_of_lt hh)
  have hrem : ix - q * a.height = ix % a.height := by
    rw [Int.emod_def]; ring
  have hrem0 : 0 ≤ ix % (a.height : Int) := Int.emod_nonneg ix hh.ne'
  have hremlt : ix % (a.height : Int) < a.height := Int.emod_lt_of_pos ix hh
  have hq0 : 0 ≤ q := Int.ediv_nonneg hge (le_of_lt hh)
  have hdm : (a.height : Int) * q + ix % a.height = ix := Int.ediv_add_emod ix _
  have hqlt : q < a.width := by
    have hlt2 : (a.height : Int) * q < a.height * a.width := by omega
    exact lt_of_mul_lt_mul_left hlt2 (le_of_lt hh)
  refine ⟨ix - (ix.fdiv a.height) * a.height, ix.fdiv a.height, ?_, ?_, ?_⟩
  · rw [array2d_inBounds_iff, hfd, hrem]
    exact ⟨hrem0, hremlt, hq0, hqlt⟩
  · intro hcon
    have h1 : ix - (ix.fdiv a.height) * a.height = row :=
      congrArg Prod.fst hcon
    have h2 : ix.fdiv a.height = col := congrArg Prod.snd hcon
    rw [hfd] at h1 h2
    rw [hrem] at h1
    have hinb : a.inBounds row col = true := by
      rw [array2d_inBounds_iff]
      exact ⟨h1 ▸ hrem0, h1 ▸ hremlt, h2 ▸ hq0, h2 ▸ hqlt⟩
    rw [hnb] at hinb
    exact Bool.false_ne_true hinb
  · have hsame :
        rc2ix a.height (ix - (ix.fdiv a.height) * a.height)
          (ix.fdiv a.height) = ix := by
      unfold rc2ix; ring
    unfold Array2D.get
    dsimp only
    rw [hsame, ← hix, if_pos hge]

/-- Witness for C9 at the concrete array `arr9` and access (2, 0). -/
theorem array2d_out_of_bounds_aliases_witness :
    ∃ r2 c2 : Int, arr9.inBounds r2 c2 = true ∧ (r2, c2) ≠ (2, 0) ∧
      arr9.get 2 0 = arr9.get r2 c2 :=
  array2d_out_of_bounds_aliases Nat arr9 2 0 rfl (by decide)
    (by decide) (by decide)

----------------------------------------------------------------------
-- C4: the LCG modulus
----------------------------------------------------------------------

/-- C4: the claim says one `next()` call maps the state to
`(seed * 1664525 + 1013904223) mod 2^32` and returns a value in [0, 1).
The code divides by `m = 2147483648 = 2^31` (its own comment reads
`// = 2^32`): at seed 1300 the code yields state 1030303075, while the
claimed update mod 2^32 yields 3177786723; and at seed -1000 the returned
value is negative, outside [0, 1). -/
theorem lcgNext_modulus_divergence :
    lcgNext 1300 = (1030303075, (1030303075 : Rat) / 2147483648) ∧
    (1300 * 1664525 + 1013904223 : Int) % 4294967296 = 3177786723 ∧
    (1030303075 : Int) ≠ 3177786723 ∧
    (lcgNext (-1000)).2 < 0 := by
  have h1 : (1300 * 1664525 + 1013904223 : Int).tmod 2147483648 =
      1030303075 := by decide
  have h2 : ((-1000) * 1664525 + 1013904223 : Int).tmod 2147483648 =
      -650620777 := by decide
  refine ⟨?_, by decide, by decide, ?_⟩
  · unfold lcgNext
    dsimp only
    rw [h1]
    norm_num
  · unfold lcgNext
    dsimp only
    rw [h2]
    norm_num

----------------------------------------------------------------------
-- C3: the candidate offsets of addRoom
----------------------------------------------------------------------

/-- C3, counterexample: with a 3 by 3 room on a 4 by 4 grid the offset
(1, 1) satisfies `y + h ≤ H` and `x + w ≤ W` — the bounding box fits,
touching the bottom and right edges — yet `addRoom` does not enumerate it:
its loops run while `y + h < H` strictly. -/
theorem lgCandidateOffsets_edge_offset_missing :
    ((1, 1) ∉ lgCandidateOffsets 3 3 4 4) ∧
    (0 ≤ (1 : Int) ∧ (1 : Int) + 3 ≤ 4) ∧
    lgCandidateOffsets 3 3 4 4 = [(0, 0)] := by decide

/-- C3, amended: in both lineages the candidate offsets for a room of
height `h`, width `w` on an `H` by `W` grid are exactly
`{(y, x) : 0 ≤ y, 0 ≤ x, y + h < H, x + w < W}` — strict inequalities, so
offsets whose bounding box touches the bottom or right edge are never
considered. -/
theorem addRoom_candidate_offsets :
    ∀ (roomH roomW : Int) (H W : Nat) (y x : Int),
      ((y, x) ∈ lgCandidateOffsets roomH roomW H W ↔
        0 ≤ y ∧ y + roomH < H ∧ 0 ≤ x ∧ x + roomW < W) ∧
      ((y, x) ∈ pdCandidateOffsets roomH roomW H W ↔
        0 ≤ y ∧ y + roomH < H ∧ 0 ≤ x ∧ x + roomW < W) :=
  fun _ _ _ _ _ _ => ⟨mem_lgCandidateOffsets, mem_pdCandidateOffsets⟩

----------------------------------------------------------------------
-- C8: the floor-adjacency predicates
----------------------------------------------------------------------

/-- A 2 by 2 pre-dungeon whose only floor is (0, 1): column-major data
index 2 = rc2ix(0, 1). -/
def pdC8 : PreDungeon := ⟨⟨2, 2, [false, false, true, false]⟩⟩

/-- C8: `isFloorAdjacent(1, 0)` returns true on `pdC8` although neither
in-bounds orthogonal neighbor of (1, 0) — (0, 0) and (1, 1) — is a floor:
its south guard `y < height()` lets it read `isFloor(2, 0)`, an
out-of-bounds cell that aliases the in-range cell (0, 1) in the
column-major store.  (`isValidDoor`, the tile-lineage twin, guards the
same read with `y < height - 1`.) -/
theorem isFloorAdjacent_reads_out_of_bounds :
    pdC8.isFloorAdjacent 1 0 = true ∧
    pdC8.isFloor 0 0 = false ∧
    pdC8.isFloor 1 1 = false ∧
    pdC8.inBounds 2 0 = false ∧
    pdC8.inBounds 1 (-1) = false ∧
    pdC8.isFloor 2 0 = pdC8.isFloor 0 1 := by decide

----------------------------------------------------------------------
-- C5: hallrayLength / isValidHallray
----------------------------------------------------------------------

/-- The four unit directions the room code constructs
(`getHallwayDir` and the template hallway tiles). -/
def isUnitDir (dir : Int × Int) : Prop :=
  dir = (1, 0) ∨ dir = (-1, 0) ∨ dir = (0, 1) ∨ dir = (0, -1)

/-- `pd.inBounds` decides the coordinate ranges. -/
theorem pd_inBounds_iff {pd : PreDungeon} {y x : Int} :
    pd.inBounds y x = true ↔
      0 ≤ y ∧ y < pd.height ∧ 0 ≤ x ∧ x < pd.width :=
  array2d_inBounds_iff

theorem rayPos_zero (y x : Int) (dir : Int × Int) :
    rayPos y x dir 0 = (y, x) := by
  unfold rayPos; simp

theorem rayPos_succ (y x : Int) (dir : Int × Int) (k : Nat) :
    rayPos y x dir (k + 1) = rayPos (y + dir.1) (x + dir.2) dir k := by
  unfold rayPos
  refine Prod.ext ?_ ?_ <;> dsimp only <;> push_cast <;> ring

/-- `n` is the step count `hallrayLength` describes: the first
floor-adjacent position of the ray, every position up to it in bounds. -/
def hallrayFirstHit (pd : PreDungeon) (y x : Int) (dir : Int × Int)
    (n : Nat) : Prop :=
  (∀ k ≤ n, pd.inBounds (rayPos y x dir k).1 (rayPos y x dir k).2 = true) ∧
  pd.isFloorAdjacent (rayPos y x dir n).1 (rayPos y x dir n).2 = true ∧
  (∀ k < n, pd.isFloorAdjacent (rayPos y x dir k).1 (rayPos y x dir k).2
    = false)

/-- Soundness of the fuelled loop: a returned step count is a first hit. -/
theorem hallrayLengthFuel_sound {pd : PreDungeon} {dir : Int × Int} :
    ∀ {fuel : Nat} {y x : Int} {n : Nat},
      hallrayLengthFuel pd dir fuel y x = some n →
      hallrayFirstHit pd y x dir n ∧ n < fuel := by
  intro fuel
  induction fuel with
  | zero => intro y x n h; exact absurd h (by unfold hallrayLengthFuel; simp)
  | succ fuel ih =>
    intro y x n h
    unfold hallrayLengthFuel at h
    by_cases hb : pd.inBounds y x = true
    · rw [if_pos hb] at h
      by_cases ha : pd.isFloorAdjacent y x = true
      · rw [if_pos ha] at h
        have hn : n = 0 := by
          have := Option.some.inj h
          omega
        subst hn
        refine ⟨⟨?_, ?_, ?_⟩, Nat.succ_pos fuel⟩
        · intro k hk
          have : k = 0 := Nat.le_zero.1 hk
          subst this
          rw [rayPos_zero]; exact hb
        · rw [rayPos_zero]; exact ha
        · intro k hk; omega
      · rw [if_neg ha] at h
        obtain ⟨m, hm, hmn⟩ := Option.map_eq_some'.1 h
        obtain ⟨⟨hb2, ha2, hna2⟩, hflt⟩ := ih hm
        subst hmn
        refine ⟨⟨?_, ?_, ?_⟩, by omega⟩
        · intro k hk
          cases k with
          | zero => rw [rayPos_zero]; exact hb
          | succ j =>
            rw [rayPos_succ]
            exact hb2 j (by omega)
        · rw [rayPos_succ]; exact ha2
        · intro k hk
          cases k with
          | zero =>
            rw [rayPos_zero]
            exact Bool.not_eq_true _ ▸ (Bool.eq_false_iff.2
              (fun hcon => ha hcon))
          | succ j =>
            rw [rayPos_succ]
            exact hna2 j (by omega)
    · rw [if_neg hb] at h
      exact absurd h (by simp)

/-- Completeness of the fuelled loop: a first hit within the fuel is
returned. -/
theorem hallrayLengthFuel_complete {pd : PreDungeon} {dir : Int × Int} :
    ∀ {fuel : Nat} {y x : Int} {n : Nat},
      hallrayFirstHit pd y x dir n → n < fuel →
      hallrayLengthFuel pd dir fuel y x = some n := by
  intro fuel
  induction fuel with
  | zero => intro y x n _ h; omega
  | succ fuel ih =>
    intro y x n ⟨hb, ha, hna⟩ hlt
    unfold hallrayLengthFuel
    have hb0 : pd.inBounds y x = true := by
      have := hb 0 (Nat.zero_le n)
      rwa [rayPos_zero] at this
    rw [if_pos hb0]
    cases n with
    | zero =>
      have := ha
      rw [rayPos_zero] at this
      rw [if_pos this]
    | succ m =>
      have ha0 : ¬ pd.isFloorAdjacent y x = true := by
        have := hna 0 (Nat.succ_pos m)
        rw [rayPos_zero] at this
        simp [this]
      rw [if_neg ha0]
      have hrec : hallrayLengthFuel pd dir fuel (y + dir.1) (x + dir.2)
          = some m := by
        refine ih ⟨?_, ?_, ?_⟩ (by omega)
        · intro k hk
          have := hb (k + 1) (by omega)
          rwa [rayPos_succ] at this
        · have := ha
          rwa [rayPos_succ] at this
        · intro k hk
          have := hna (k + 1) (by omega)
          rwa [rayPos_succ] at this
      rw [hrec]
      rfl

/-- Along a unit direction a ray starting in bounds cannot stay in bounds
for `height + width` steps. -/
theorem ray_exits {pd : PreDungeon} {y x : Int} {dir : Int × Int}
    (hdir : isUnitDir dir) (hn : pd.inBounds y x = true) {n : Nat}
    (hbn : pd.inBounds (rayPos y x dir n).1 (rayPos y x dir n).2 = true) :
    n < pd.height + pd.width := by
  rw [pd_inBounds_iff] at hn hbn
  unfold rayPos at hbn
  rcases hdir with h | h | h | h <;> subst h <;> dsimp only at hbn <;> omega

/-- Some position of the ray is out of bounds within `height + width`
steps. -/
theorem ray_exit_exists (pd : PreDungeon) (y x : Int) {dir : Int × Int}
    (hdir : isUnitDir dir) :
    ∃ m, m ≤ pd.height + pd.width ∧
      pd.inBounds (rayPos y x dir m).1 (rayPos y x dir m).2 = false := by
  by_cases h0 : pd.inBounds y x = true
  · rw [pd_inBounds_iff] at h0
    rcases hdir with h | h | h | h <;> subst h
    · refine ⟨(pd.height - y).toNat, by omega, ?_⟩
      rw [← Bool.not_eq_true, pd_inBounds_iff]
      unfold rayPos; dsimp only; omega
    · refine ⟨(y + 1).toNat, by omega, ?_⟩
      rw [← Bool.not_eq_true, pd_inBounds_iff]
      unfold rayPos; dsimp only; omega
    · refine ⟨(pd.width - x).toNat, by omega, ?_⟩
      rw [← Bool.not_eq_true, pd_inBounds_iff]
      unfold rayPos; dsimp only; omega
    · refine ⟨(x + 1).toNat, by omega, ?_⟩
      rw [← Bool.not_eq_true, pd_inBounds_iff]
      unfold rayPos; dsimp only; omega
  · refine ⟨0, Nat.zero_le _, ?_⟩
    rw [rayPos_zero]
    exact Bool.eq_false_iff.2 h0

/-- C5: for every pre-dungeon, in-bounds start and unit direction,
`hallrayLength` returns `some n` exactly when `n` counts the steps to the
first floor-adjacent position of the ray (every position up to it in
bounds), returns Infinity (`none`) exactly when the ray leaves the grid
without meeting a floor-adjacent position, and `isValidHallray` holds
exactly when that count exists and is strictly below `maxLength` — so a
nearest floor-adjacent cell 7 steps away with maxLength 6 is rejected and
one 5 steps away is accepted. -/
theorem hallrayLength_isValidHallray_spec (pd : PreDungeon) (y x : Int)
    (dir : Int × Int) (hdir : isUnitDir dir)
    (hin : pd.inBounds y x = true) :
    (∀ n : Nat, hallrayLength pd y x dir = some n ↔
      hallrayFirstHit pd y x dir n) ∧
    (hallrayLength pd y x dir = none ↔
      ∃ m : Nat,
        pd.inBounds (rayPos y x dir m).1 (rayPos y x dir m).2 = false ∧
        ∀ k < m,
          pd.inBounds (rayPos y x dir k).1 (rayPos y x dir k).2 = true ∧
          pd.isFloorAdjacent (rayPos y x dir k).1 (rayPos y x dir k).2
            = false) ∧
    (∀ maxLength : Int, isValidHallray pd y x dir maxLength = true ↔
      ∃ n : Nat, hallrayFirstHit pd y x dir n ∧ (n : Int) < maxLength) := by
  have hsome : ∀ n : Nat, hallrayLength pd y x dir = some n ↔
      hallrayFirstHit pd y x dir n := by
    intro n
    constructor
    · intro h
      exact (hallrayLengthFuel_sound h).1
    · intro h
      have hn : n < pd.height + pd.width :=
        ray_exits hdir hin (h.1 n (le_refl n))
      exact hallrayLengthFuel_complete h (by omega)
  refine ⟨hsome, ?_, ?_⟩
  · constructor
    · intro h
      obtain ⟨m0, hm0le, hm0⟩ := ray_exit_exists pd y x hdir
      have hex : ∃ k,
          pd.inBounds (rayPos y x dir k).1 (rayPos y x dir k).2 = false ∨
          pd.isFloorAdjacent (rayPos y x dir k).1 (rayPos y x dir k).2
            = true :=
        ⟨m0, Or.inl hm0⟩
      set m := Nat.find hex with hmdef
      have hmspec := Nat.find_spec hex
      have hmmin := fun k (hk : k < m) => Nat.find_min hex hk
      have hpre : ∀ k < m,
          pd.inBounds (rayPos y x dir k).1 (rayPos y x dir k).2 = true ∧
          pd.isFloorAdjacent (rayPos y x dir k).1 (rayPos y x dir k).2
            = false := by
        intro k hk
        have h2 := hmmin k hk
        push_neg at h2
        constructor
        · cases hcase : pd.inBounds (rayPos y x dir k).1 (rayPos y x dir k).2
          · exact absurd hcase h2.1
          · rfl
        · cases hcase : pd.isFloorAdjacent (rayPos y x dir k).1
            (rayPos y x dir k).2
          · rfl
          · exact absurd hcase h2.2
      cases hcase : pd.inBounds (rayPos y x dir m).1 (rayPos y x dir m).2 with
      | false => exact ⟨m, hcase, hpre⟩
      | true =>
        exfalso
        have hadj : pd.isFloorAdjacent (rayPos y x dir m).1
            (rayPos y x dir m).2 = true := by
          rcases hmspec with hspec | hspec
          · rw [hcase] at hspec; exact Bool.noConfusion hspec
          · exact hspec
        have hfh : hallrayFirstHit pd y x dir m := by
          refine ⟨?_, hadj, fun k hk => (hpre k hk).2⟩
          intro k hk
          rcases Nat.lt_or_ge k m with hlt | hge
          · exact (hpre k hlt).1
          · have hkm : k = m := le_antisymm hk hge
            rw [hkm]; exact hcase
        rw [(hsome m).2 hfh] at h
        exact Option.some_ne_none m h
    · rintro ⟨m, hmout, hmpre⟩
      cases hcase : hallrayLength pd y x dir with
      | none => rfl
      | some n =>
        exfalso
        have hfh := (hsome n).1 hcase
        rcases Nat.lt_or_ge n m with hlt | hge
        · exact absurd hfh.2.1 (by simp [(hmpre n hlt).2])
        · have := hfh.1 m (by omega)
          rw [hmout] at this
          exact Bool.false_ne_true this
  · intro maxLength
    unfold isValidHallray
    cases hcase : hallrayLength pd y x dir with
    | none =>
      simp only [Bool.false_eq_true, false_iff]
      rintro ⟨n, hfh, -⟩
      rw [(hsome n).2 hfh] at hcase
      exact Option.noConfusion hcase
    | some n =>
      simp only [decide_eq_true_eq]
      constructor
      · intro h
        exact ⟨n, (hsome n).1 hcase, h⟩
      · rintro ⟨n2, hfh, hlt⟩
        have : some n = some n2 := hcase ▸ (hsome n2).2 hfh
        have : n = n2 := Option.some.inj this
        omega

/-- Witness for C5: a 3 by 4 pre-dungeon whose only floor is (0, 3); the
ray east from (1, 0) first becomes floor-adjacent at (1, 3), 3 steps in. -/
theorem hallrayLength_isValidHallray_spec_witness :
    (hallrayLength ⟨⟨3, 4, [false, false, false, false, false, false,
      false, false, false, true, false, false]⟩⟩ 1 0 (0, 1) = some 3 ↔
      hallrayFirstHit ⟨⟨3, 4, [false, false, false, false, false, false,
        false, false, false, true, false, false]⟩⟩ 1 0 (0, 1) 3) ∧
    hallrayLength ⟨⟨3, 4, [false, false, false, false, false, false,
      false, false, false, true, false, false]⟩⟩ 1 0 (0, 1) = some 3 := by
  constructor
  · exact (hallrayLength_isValidHallray_spec _ 1 0 (0, 1)
      (Or.inr (Or.inr (Or.inl rfl))) (by decide)).1 3
  · decide

----------------------------------------------------------------------
-- C6: placeAt on a floorless grid
----------------------------------------------------------------------

/-- A grid that contains no Floor tile (at any in-range cell). -/
def NoFloorGrid (g : TileGrid) : Prop :=
  ∀ r c : Int, 0 ≤ r → r < g.height → 0 ≤ c → c < g.width →
    g.get r c ≠ some Tile.Floor

/-- A grid whose backing store holds no Floor entry is floorless. -/
theorem noFloorGrid_of_data {g : TileGrid}
    (h : ∀ t ∈ g.data, t ≠ Tile.Floor) : NoFloorGrid g := by
  intro r c _ _ _ _ hcon
  unfold Array2D.get at hcon
  dsimp only at hcon
  by_cases hge : 0 ≤ rc2ix g.height r c
  · rw [if_pos hge] at hcon
    exact h _ (List.get?_mem hcon) rfl
  · rw [if_neg hge] at hcon
    exact Option.noConfusion hcon

/-- On a grid without floor tiles no position is a valid door. -/
theorem isValidDoor_eq_false_of_noFloor {g : TileGrid}
    (hnf : NoFloorGrid g) {y x : Int}
    (hy : 0 ≤ y) (hyh : y < g.height) (hx : 0 ≤ x) (hxw : x < g.width) :
    isValidDoor g y x = false := by
  rw [Bool.eq_false_iff]
  intro hcon
  unfold isValidDoor at hcon
  simp only [Bool.or_eq_true, Bool.and_eq_true, decide_eq_true_eq,
    beq_iff_eq] at hcon
  rcases hcon with ((⟨h1, h2⟩ | ⟨h1, h2⟩) | ⟨h1, h2⟩) | ⟨h1, h2⟩
  · exact hnf (y - 1) x (by omega) (by omega) hx hxw h2
  · exact hnf (y + 1) x (by omega) (by omega) hx hxw h2
  · exact hnf y (x - 1) hy hyh (by omega) (by omega) h2
  · exact hnf y (x + 1) hy hyh (by omega) (by omega) h2

/-- Walling cells keeps a grid floorless (and well-formed, with its
dimensions). -/
theorem walls_fold_noFloor {g : TileGrid} (l : List (Int × Int))
    (hwf : g.WF) (hnf : NoFloorGrid g)
    (hin : ∀ p ∈ l, 0 ≤ p.1 ∧ p.1 < g.height ∧ 0 ≤ p.2 ∧ p.2 < g.width) :
    NoFloorGrid (l.foldl (fun g2 p => g2.set p.1 p.2 Tile.Wall) g) := by
  have h := @foldl_preserve (Int × Int) TileGrid
    (fun g2 : TileGrid => g2.height = g.height ∧ g2.width = g.width ∧
      g2.WF ∧ NoFloorGrid g2)
    (fun g2 p => g2.set p.1 p.2 Tile.Wall) l g
    ?_ ⟨rfl, rfl, hwf, hnf⟩
  · exact h.2.2.2
  · rintro g2 p hp ⟨hh, hw, hwf2, hnf2⟩
    have hpin := hin p hp
    rw [← hh, ← hw] at hpin
    refine ⟨?_, ?_, Array2D.WF_set _ _ _ _ hwf2, ?_⟩
    · rw [Array2D.set_height, hh]
    · rw [Array2D.set_width, hw]
    · intro r c hr hrh hc hcw
      rw [Array2D.set_height] at hrh
      rw [Array2D.set_width] at hcw
      rw [Array2D.get_set Tile.Wall hwf2 hpin.1 hpin.2.1 hpin.2.2.1
        hpin.2.2.2]
      split
      · intro hcon; exact Tile.noConfusion (Option.some.inj hcon)
      · exact hnf2 r c hr hrh hc hcw

/-- C6: placing a `RectangularRoom` of height and width at least 3 at an
in-bounds offset of a well-formed grid that contains no Floor tile — in
particular the force-placed first room of every generation — leaves the
bounding box with Wall on every perimeter cell and Floor on exactly the
centered (height-2) by (width-2) interior, and writes no Door anywhere in
the box: door selection finds no valid door on a floorless grid, whatever
index the random draw denotes. -/
theorem rectRoom_placeAt_floorless_spec (h w py px : Int) (doorIx : Nat)
    (tiles : TileGrid) (hwf : tiles.WF) (hnf : NoFloorGrid tiles)
    (hh : 3 ≤ h) (hw : 3 ≤ w) (hpy : 0 ≤ py) (hpx : 0 ≤ px)
    (hyb : py + h ≤ tiles.height) (hxb : px + w ≤ tiles.width)
    (r c : Int) (hr1 : py ≤ r) (hr2 : r < py + h)
    (hc1 : px ≤ c) (hc2 : c < px + w) :
    ((r = py ∨ r = py + h - 1 ∨ c = px ∨ c = px + w - 1) →
      ((RectangularRoom.mk h w).placeAt doorIx tiles py px).get r c =
        some Tile.Wall) ∧
    ((py < r ∧ r < py + h - 1 ∧ px < c ∧ c < px + w - 1) →
      ((RectangularRoom.mk h w).placeAt doorIx tiles py px).get r c =
        some Tile.Floor) ∧
    ((RectangularRoom.mk h w).placeAt doorIx tiles py px).get r c ≠
      some Tile.Door := by
  unfold RectangularRoom.placeAt
  dsimp only
  set rect : Rectangle := ⟨py, px, h, w⟩ with hrect
  set t1 := (rect.perimeterCoords 0).foldl
    (fun g c2 => g.set c2.1 c2.2 Tile.Wall) tiles with ht1
  have harea_in : ∀ p ∈ rect.areaCoords,
      0 ≤ p.1 ∧ p.1 < tiles.height ∧ 0 ≤ p.2 ∧ p.2 < tiles.width := by
    intro p hp
    rw [Rectangle.mem_areaCoords] at hp
    rw [hrect] at hp
    dsimp only at hp
    omega
  have hperim0_in : ∀ p ∈ rect.perimeterCoords 0,
      0 ≤ p.1 ∧ p.1 < tiles.height ∧ 0 ≤ p.2 ∧ p.2 < tiles.width :=
    fun p hp => harea_in p
      (Rectangle.perimeter_subset_area (by omega)
        (by rw [hrect]; dsimp only; omega)
        (by rw [hrect]; dsimp only; omega) hp)
  have ht1dims := foldl_set_dims Tile.Wall (rect.perimeterCoords 0) tiles
  have ht1wf := foldl_set_WF Tile.Wall (rect.perimeterCoords 0) tiles hwf
  have ht1nf : NoFloorGrid t1 := walls_fold_noFloor _ hwf hnf hperim0_in
  have hdoors : (RectangularRoom.mk h w).validDoorsAt tiles py px = [] := by
    unfold RectangularRoom.validDoorsAt
    dsimp only
    rw [← hrect, ← ht1]
    rw [List.filter_eq_nil_iff]
    intro p hp
    have hpin : 0 ≤ p.1 ∧ p.1 < tiles.height ∧ 0 ≤ p.2 ∧
        p.2 < tiles.width :=
      harea_in p (Rectangle.perimeter_subset_area (by omega)
        (by rw [hrect]; dsimp only; omega)
        (by rw [hrect]; dsimp only; omega) hp)
    have := @isValidDoor_eq_false_of_noFloor t1 ht1nf p.1 p.2
      hpin.1 (by rw [ht1dims.1]; exact hpin.2.1)
      hpin.2.2.1 (by rw [ht1dims.2]; exact hpin.2.2.2)
    simp [this]
  rw [hdoors]
  simp only [List.isEmpty_nil, if_true]
  set inner := rect.enlarge (-2) (-2) with hinner
  have hinner_eq : inner = ⟨py + 1, px + 1, h + -2, w + -2⟩ := by
    rw [hinner, hrect]
    unfold Rectangle.enlarge
    rw [show ((-2 : Int)).fdiv 2 = -1 from rfl]
    simp only [Rectangle.mk.injEq]
    norm_num
  have hinner_in : ∀ p ∈ inner.areaCoords,
      0 ≤ p.1 ∧ p.1 < t1.height ∧ 0 ≤ p.2 ∧ p.2 < t1.width := by
    intro p hp
    rw [Rectangle.mem_areaCoords, hinner_eq] at hp
    dsimp only at hp
    rw [ht1dims.1, ht1dims.2]
    omega
  have hboundary_wall : (r = py ∨ r = py + h - 1 ∨ c = px ∨
      c = px + w - 1) →
      (inner.areaCoords.foldl (fun g c2 => g.set c2.1 c2.2 Tile.Floor)
        t1).get r c = some Tile.Wall := by
    intro hb
    have hmem : (r, c) ∈ rect.perimeterCoords 0 := by
      rw [Rectangle.mem_perimeterCoords, hrect]
      dsimp only
      omega
    have hwall : t1.get r c = some Tile.Wall :=
      get_foldl_set_mem Tile.Wall _ tiles hwf hperim0_in r c hmem
    have hnotin : (r, c) ∉ inner.areaCoords := by
      rw [Rectangle.mem_areaCoords, hinner_eq]
      dsimp only
      omega
    rw [get_foldl_set_not_mem Tile.Floor _ t1 ht1wf hinner_in r c
      (by omega) (by rw [ht1dims.1]; omega) hnotin]
    exact hwall
  have hinterior_floor : (py < r ∧ r < py + h - 1 ∧ px < c ∧
      c < px + w - 1) →
      (inner.areaCoords.foldl (fun g c2 => g.set c2.1 c2.2 Tile.Floor)
        t1).get r c = some Tile.Floor := by
    intro hb
    have hmem : (r, c) ∈ inner.areaCoords := by
      rw [Rectangle.mem_areaCoords, hinner_eq]
      dsimp only
      omega
    exact get_foldl_set_mem Tile.Floor _ t1 ht1wf hinner_in r c hmem
  refine ⟨hboundary_wall, hinterior_floor, ?_⟩
  by_cases hb : r = py ∨ r = py + h - 1 ∨ c = px ∨ c = px + w - 1
  · rw [hboundary_wall hb]
    intro hcon; exact Tile.noConfusion (Option.some.inj hcon)
  · push_neg at hb
    rw [hinterior_floor (by omega)]
    intro hcon; exact Tile.noConfusion (Option.some.inj hcon)

/-- Witness for C6: a 4 by 4 room force-placed at (0, 0) on an empty
5 by 5 grid — perimeter cell (0, 1) reads Wall, interior cell (1, 1)
reads Floor, neither is a Door. -/
theorem rectRoom_placeAt_floorless_spec_witness :
    (((RectangularRoom.mk 4 4).placeAt 0
        ⟨5, 5, List.replicate 25 Tile.Empty⟩ 0 0).get 0 1 =
      some Tile.Wall) ∧
    (((RectangularRoom.mk 4 4).placeAt 0
        ⟨5, 5, List.replicate 25 Tile.Empty⟩ 0 0).get 1 1 =
      some Tile.Floor) := by
  have h1 := rectRoom_placeAt_floorless_spec 4 4 0 0 0
    ⟨5, 5, List.replicate 25 Tile.Empty⟩ rfl
    (noFloorGrid_of_data (by decide))
    (by decide) (by decide) (by decide) (by decide) (by decide) (by decide)
  exact ⟨(h1 0 1 (by decide) (by decide) (by decide) (by decide)).1
      (Or.inl rfl),
    (h1 1 1 (by decide) (by decide) (by decide) (by decide)).2.1
      (by norm_num)⟩

----------------------------------------------------------------------
-- C2: what validated placements may overwrite
----------------------------------------------------------------------

/-- Shrinking by (-2, -2) stays inside the rectangle. -/
theorem enlarge_neg2_subset {py px h w : Int} {p : Int × Int}
    (hp : p ∈ ((Rectangle.mk py px h w).enlarge (-2) (-2)).areaCoords) :
    p ∈ (Rectangle.mk py px h w).areaCoords := by
  rw [Rectangle.mem_areaCoords] at hp ⊢
  unfold Rectangle.enlarge at hp
  rw [show ((-2 : Int)).fdiv 2 = -1 from rfl] at hp
  dsimp only at hp ⊢
  omega

/-- A rectangular-room placement at an in-bounds offset never touches a
cell outside the bounding rectangle, for any door index the random draw
can denote. -/
theorem rectRoom_placeAt_outside_unchanged (h w py px : Int)
    (doorIx : Nat) (tiles : TileGrid) (hwf : tiles.WF)
    (hh : 1 ≤ h) (hw : 1 ≤ w) (hpy : 0 ≤ py) (hpx : 0 ≤ px)
    (hyb : py + h ≤ tiles.height) (hxb : px + w ≤ tiles.width)
    (hdoorIx : doorIx <
        ((RectangularRoom.mk h w).validDoorsAt tiles py px).length ∨
      (RectangularRoom.mk h w).validDoorsAt tiles py px = [])
    (r c : Int) (hr : 0 ≤ r) (hrh : r < tiles.height)
    (hout : (r, c) ∉ (Rectangle.mk py px h w).areaCoords) :
    ((RectangularRoom.mk h w).placeAt doorIx tiles py px).get r c =
      tiles.get r c := by
  unfold RectangularRoom.placeAt
  dsimp only
  set rect : Rectangle := ⟨py, px, h, w⟩ with hrect
  set t1 := (rect.perimeterCoords 0).foldl
    (fun g c2 => g.set c2.1 c2.2 Tile.Wall) tiles with ht1
  have harea_in : ∀ p ∈ rect.areaCoords,
      0 ≤ p.1 ∧ p.1 < tiles.height ∧ 0 ≤ p.2 ∧ p.2 < tiles.width := by
    intro p hp
    rw [Rectangle.mem_areaCoords] at hp
    rw [hrect] at hp
    dsimp only at hp
    omega
  have hperim0_sub : ∀ p ∈ rect.perimeterCoords 0, p ∈ rect.areaCoords :=
    fun p hp => Rectangle.perimeter_subset_area (by omega)
      (by rw [hrect]; dsimp only; omega)
      (by rw [hrect]; dsimp only; omega) hp
  have hperim1_sub : ∀ p ∈ rect.perimeterCoords 1, p ∈ rect.areaCoords :=
    fun p hp => Rectangle.perimeter_subset_area (by omega)
      (by rw [hrect]; dsimp only; omega)
      (by rw [hrect]; dsimp only; omega) hp
  have hperim0_in : ∀ p ∈ rect.perimeterCoords 0,
      0 ≤ p.1 ∧ p.1 < tiles.height ∧ 0 ≤ p.2 ∧ p.2 < tiles.width :=
    fun p hp => harea_in p (hperim0_sub p hp)
  have ht1dims : t1.height = tiles.height ∧ t1.width = tiles.width := by
    rw [ht1]
    exact foldl_set_dims Tile.Wall (rect.perimeterCoords 0) tiles
  have ht1wf : t1.WF := by
    rw [ht1]
    exact foldl_set_WF Tile.Wall (rect.perimeterCoords 0) tiles hwf
  have ht1get : t1.get r c = tiles.get r c := by
    rw [ht1]
    exact get_foldl_set_not_mem Tile.Wall _ tiles hwf hperim0_in r c hr hrh
      (fun hmem => hout (hperim0_sub (r, c) hmem))
  have hvd_sub : ∀ p ∈ (RectangularRoom.mk h w).validDoorsAt tiles py px,
      p ∈ rect.areaCoords := by
    intro p hp
    unfold RectangularRoom.validDoorsAt at hp
    dsimp only at hp
    rw [← hrect] at hp
    exact hperim1_sub p (List.mem_of_mem_filter hp)
  have hinner_in : ∀ p ∈ (rect.enlarge (-2) (-2)).areaCoords,
      0 ≤ p.1 ∧ p.1 < t1.height ∧ 0 ≤ p.2 ∧ p.2 < t1.width := by
    intro p hp
    rw [ht1dims.1, ht1dims.2]
    exact harea_in p (enlarge_neg2_subset (hrect ▸ hp))
  set t2 := if ((RectangularRoom.mk h w).validDoorsAt tiles py px).isEmpty
    then t1
    else t1.set ((RectangularRoom.mk h w).validDoorsAt tiles py px |>.getD
      doorIx (0, 0)).1
      ((RectangularRoom.mk h w).validDoorsAt tiles py px |>.getD
        doorIx (0, 0)).2 Tile.Door with ht2
  have ht2dims : t2.height = t1.height ∧ t2.width = t1.width := by
    rw [ht2]
    split
    · exact ⟨rfl, rfl⟩
    · rw [Array2D.set_height, Array2D.set_width]; exact ⟨rfl, rfl⟩
  have ht2wf : t2.WF := by
    rw [ht2]
    split
    · exact ht1wf
    · exact Array2D.WF_set _ _ _ _ ht1wf
  have ht2get : t2.get r c = tiles.get r c := by
    rw [ht2]
    split
    · exact ht1get
    · rename_i hne
      have hmem : ((RectangularRoom.mk h w).validDoorsAt tiles py px).getD
          doorIx (0, 0) ∈ (RectangularRoom.mk h w).validDoorsAt tiles py px := by
        rcases hdoorIx with hlt | hnil
        · rw [List.getD_eq_getElem?_getD, List.getElem?_eq_getElem hlt]
          exact List.getElem_mem _
        · rw [hnil] at hne
          simp at hne
      have hdarea := hvd_sub _ hmem
      have hdin := harea_in _ hdarea
      rw [Array2D.get_set Tile.Door ht1wf
        hdin.1
        (by rw [ht1dims.1]; exact hdin.2.1)
        hdin.2.2.1
        (by rw [ht1dims.2]; exact hdin.2.2.2)]
      rw [if_neg, ht1get]
      intro hixeq
      have := rc2ix_inj hr (by rw [ht1dims.1]; exact hrh) hdin.1
        (by rw [ht1dims.1]; exact hdin.2.1) hixeq
      exact hout (by
        rw [this.1, this.2]
        exact hdarea)
  rw [get_foldl_set_not_mem Tile.Floor _ t2 ht2wf
    (by
      intro p hp
      rw [ht2dims.1, ht2dims.2]
      exact hinner_in p hp)
    r c hr (by rw [ht2dims.1, ht1dims.1]; exact hrh)
    (fun hmem => hout (enlarge_neg2_subset (hrect ▸ hmem)))]
  exact ht2get

/-- What `canPlaceAtFloorOnly` guarantees about the bounding box. -/
theorem canPlaceAtFloorOnly_no_floor {h w py px : Int} {tiles : TileGrid}
    (hcan : (RectangularRoom.mk h w).canPlaceAtFloorOnly tiles py px = true) :
    ∀ p ∈ (Rectangle.mk py px h w).areaCoords,
      tiles.get p.1 p.2 ≠ some Tile.Floor := by
  unfold RectangularRoom.canPlaceAtFloorOnly at hcan
  dsimp only at hcan
  rw [Bool.and_eq_true] at hcan
  have h1 := hcan.1
  rw [List.all_eq_true] at h1
  intro p hp hcon
  have := h1 p hp
  rw [hcon] at this
  simp at this

/-- What the Rectangle-revision `canPlaceAt` guarantees. -/
theorem canPlaceAt_no_walkable {h w py px : Int} {tiles : TileGrid}
    (hcan : (RectangularRoom.mk h w).canPlaceAt tiles py px = true) :
    ∀ p ∈ (Rectangle.mk py px h w).areaCoords,
      tiles.get p.1 p.2 ≠ some Tile.Floor ∧
      tiles.get p.1 p.2 ≠ some Tile.Door := by
  unfold RectangularRoom.canPlaceAt at hcan
  dsimp only at hcan
  rw [Bool.and_eq_true] at hcan
  have h1 := hcan.1
  rw [List.all_eq_true] at h1
  intro p hp
  have := h1 p hp
  rw [Bool.and_eq_true] at this
  constructor
  · intro hcon; rw [hcon] at this; simp at this
  · intro hcon; rw [hcon] at this; simp at this

/-- What the template-room `canPlaceAt` guarantees: no non-empty template
cell sits on a walkable level cell. -/
theorem templateRoom_canPlaceAt_no_walkable {room : TemplateRoom}
    {py px : Int} {tiles : TileGrid}
    (hcan : room.canPlaceAt tiles py px = true) :
    ∀ p ∈ (Rectangle.mk 0 0 room.tiles.height room.tiles.width).areaCoords,
      room.tiles.get p.1 p.2 ≠ some Tile.Empty →
      tiles.get (p.1 + py) (p.2 + px) ≠ some Tile.Floor ∧
      tiles.get (p.1 + py) (p.2 + px) ≠ some Tile.Door := by
  unfold TemplateRoom.canPlaceAt at hcan
  dsimp only at hcan
  rw [Bool.and_eq_true] at hcan
  have h1 := hcan.1
  rw [List.all_eq_true] at h1
  intro p hp hne
  have h2 := h1 p hp
  have hne2 : (room.tiles.get p.1 p.2 == some Tile.Empty) = false :=
    beq_eq_false_iff_ne.2 hne
  rw [Bool.not_eq_true'] at h2
  rw [hne2] at h2
  simp only [Bool.not_false, Bool.true_and] at h2
  rw [Bool.or_eq_false_iff] at h2
  exact ⟨beq_eq_false_iff_ne.1 h2.1, beq_eq_false_iff_ne.1 h2.2⟩

/-- A template-room placement leaves every walkable cell exactly as it
was: the placement writes only under non-empty template cells, which
`canPlaceAt` checked are not on walkable cells. -/
theorem templateRoom_placeAt_preserves_walkable (room : TemplateRoom)
    (py px : Int) (tiles : TileGrid) (hwf : tiles.WF)
    (hpy : 0 ≤ py) (hpx : 0 ≤ px)
    (hyb : py + room.tiles.height ≤ tiles.height)
    (hxb : px + room.tiles.width ≤ tiles.width)
    (hcan : room.canPlaceAt tiles py px = true)
    (r c : Int) (hr : 0 ≤ r) (hrh : r < tiles.height)
    (hwalk : tiles.get r c = some Tile.Floor ∨
      tiles.get r c = some Tile.Door) :
    (room.placeAt tiles py px).get r c = tiles.get r c := by
  have hnw := templateRoom_canPlaceAt_no_walkable hcan
  unfold TemplateRoom.placeAt
  dsimp only
  set rect : Rectangle := ⟨0, 0, room.tiles.height, room.tiles.width⟩
    with hrect
  have harea_in : ∀ p ∈ rect.areaCoords,
      0 ≤ p.1 + py ∧ p.1 + py < tiles.height ∧
      0 ≤ p.2 + px ∧ p.2 + px < tiles.width := by
    intro p hp
    rw [Rectangle.mem_areaCoords] at hp
    rw [hrect] at hp
    dsimp only at hp
    omega
  have hmain : ∀ (l : List (Int × Int)), (∀ p ∈ l, p ∈ rect.areaCoords) →
      ∀ (step : TileGrid → Int × Int → TileGrid),
      (∀ g p, p ∈ l →
        step g p = g ∨
        ((room.tiles.get p.1 p.2 ≠ some Tile.Empty ∧ ∃ v : Tile,
          step g p = g.set (p.1 + py) (p.2 + px) v))) →
      ∀ g : TileGrid, g.height = tiles.height → g.width = tiles.width →
        g.WF → g.get r c = tiles.get r c →
        ((l.foldl step g).height = tiles.height ∧
         (l.foldl step g).width = tiles.width ∧
         (l.foldl step g).WF ∧
         (l.foldl step g).get r c = tiles.get r c) := by
    intro l hl step hstep
    induction l with
    | nil => intro g hgh hgw hgwf hgget; exact ⟨hgh, hgw, hgwf, hgget⟩
    | cons p t ih =>
      intro g hgh hgw hgwf hgget
      rw [List.foldl_cons]
      have hp := hl p (List.mem_cons_self p t)
      have hpin := harea_in p hp
      refine ih (fun q hq => hl q (List.mem_cons_of_mem p hq))
        (fun g2 q hq => hstep g2 q (List.mem_cons_of_mem p hq)) _
        ?_ ?_ ?_ ?_
      · rcases hstep g p (List.mem_cons_self p t) with heq | ⟨-, v, heq⟩
        · rw [heq]; exact hgh
        · rw [heq, Array2D.set_height]; exact hgh
      · rcases hstep g p (List.mem_cons_self p t) with heq | ⟨-, v, heq⟩
        · rw [heq]; exact hgw
        · rw [heq, Array2D.set_width]; exact hgw
      · rcases hstep g p (List.mem_cons_self p t) with heq | ⟨-, v, heq⟩
        · rw [heq]; exact hgwf
        · rw [heq]; exact Array2D.WF_set _ _ _ _ hgwf
      · rcases hstep g p (List.mem_cons_self p t) with heq | ⟨hne, v, heq⟩
        · rw [heq]; exact hgget
        · rw [heq]
          rw [Array2D.get_set v hgwf
            hpin.1 (by rw [hgh]; exact hpin.2.1)
            hpin.2.2.1 (by rw [hgw]; exact hpin.2.2.2)]
          rw [if_neg, hgget]
          intro hixeq
          have hrh2 : r < (g.height : Int) := by rw [hgh]; exact hrh
          have hp1h : p.1 + py < (g.height : Int) := by
            rw [hgh]; exact hpin.2.1
          have hco := rc2ix_inj hr hrh2 hpin.1 hp1h hixeq
          have := hnw p hp hne
          rw [← hco.1, ← hco.2] at this
          rcases hwalk with hfl | hdr
          · exact this.1 hfl
          · exact this.2 hdr
  have hpass1 := hmain rect.areaCoords (fun p hp => hp)
    (fun g c2 =>
      if room.tiles.get c2.1 c2.2 == some Tile.Wall then
        g.set (c2.1 + py) (c2.2 + px) Tile.Wall
      else if room.tiles.get c2.1 c2.2 == some Tile.Door then
        (if isValidDoor g (c2.1 + py) (c2.2 + px) then
          g.set (c2.1 + py) (c2.2 + px) Tile.Door
        else
          g.set (c2.1 + py) (c2.2 + px) Tile.Wall)
      else g)
    (by
      intro g p hp
      by_cases hWall : room.tiles.get p.1 p.2 == some Tile.Wall
      · refine Or.inr ⟨?_, Tile.Wall, ?_⟩
        · rw [beq_iff_eq] at hWall
          rw [hWall]
          intro hcon
          exact Tile.noConfusion (Option.some.inj hcon)
        · dsimp only
          rw [if_pos hWall]
      · by_cases hDoor : room.tiles.get p.1 p.2 == some Tile.Door
        · refine Or.inr ⟨?_, ?_⟩
          · rw [beq_iff_eq] at hDoor
            rw [hDoor]
            intro hcon
            exact Tile.noConfusion (Option.some.inj hcon)
          · dsimp only
            rw [if_neg hWall, if_pos hDoor]
            by_cases hvd : isValidDoor g (p.1 + py) (p.2 + px) = true
            · exact ⟨Tile.Door, by rw [if_pos hvd]⟩
            · exact ⟨Tile.Wall, by rw [if_neg hvd]⟩
        · refine Or.inl ?_
          dsimp only
          rw [if_neg hWall, if_neg hDoor])
    tiles rfl rfl hwf rfl
  have hpass2 := hmain rect.areaCoords (fun p hp => hp)
    (fun g c2 =>
      if room.tiles.get c2.1 c2.2 == some Tile.Floor then
        g.set (c2.1 + py) (c2.2 + px) Tile.Floor
      else g)
    (by
      intro g p hp
      by_cases hFloor : room.tiles.get p.1 p.2 == some Tile.Floor
      · refine Or.inr ⟨?_, Tile.Floor, ?_⟩
        · rw [beq_iff_eq] at hFloor
          rw [hFloor]
          intro hcon
          exact Tile.noConfusion (Option.some.inj hcon)
        · dsimp only
          rw [if_pos hFloor]
      · refine Or.inl ?_
        dsimp only
        rw [if_neg hFloor])
    _ hpass1.1 hpass1.2.1 hpass1.2.2.1 hpass1.2.2.2
  exact hpass2.2.2.2

/-- C2, counterexample: a 5 by 5 grid with Floor at (1, 1) and Door at
(2, 2).  The `canPlaceAtFloorOnly` revision accepts a 3 by 3 room at
offset (0, 2) — it rejects only Floor overlap, and (1, 2) is a valid
door — although the existing Door (2, 2) lies on the box corner, and
`placeAt` then overwrites that Door with Wall.  (The Rectangle revision
`canPlaceAt`, which also rejects Door overlap, refuses this offset.) -/
theorem placement_overwrites_door_with_wall :
    ((RectangularRoom.mk 3 3).canPlaceAtFloorOnly
      ⟨5, 5, [Tile.Empty, Tile.Empty, Tile.Empty, Tile.Empty, Tile.Empty,
        Tile.Empty, Tile.Floor, Tile.Empty, Tile.Empty, Tile.Empty,
        Tile.Empty, Tile.Empty, Tile.Door, Tile.Empty, Tile.Empty,
        Tile.Empty, Tile.Empty, Tile.Empty, Tile.Empty, Tile.Empty,
        Tile.Empty, Tile.Empty, Tile.Empty, Tile.Empty, Tile.Empty]⟩
      0 2 = true) ∧
    ((⟨5, 5, [Tile.Empty, Tile.Empty, Tile.Empty, Tile.Empty, Tile.Empty,
        Tile.Empty, Tile.Floor, Tile.Empty, Tile.Empty, Tile.Empty,
        Tile.Empty, Tile.Empty, Tile.Door, Tile.Empty, Tile.Empty,
        Tile.Empty, Tile.Empty, Tile.Empty, Tile.Empty, Tile.Empty,
        Tile.Empty, Tile.Empty, Tile.Empty, Tile.Empty, Tile.Empty]⟩ :
        TileGrid).get 2 2 = some Tile.Door) ∧
    (((RectangularRoom.mk 3 3).placeAt 0
      ⟨5, 5, [Tile.Empty, Tile.Empty, Tile.Empty, Tile.Empty, Tile.Empty,
        Tile.Empty, Tile.Floor, Tile.Empty, Tile.Empty, Tile.Empty,
        Tile.Empty, Tile.Empty, Tile.Door, Tile.Empty, Tile.Empty,
        Tile.Empty, Tile.Empty, Tile.Empty, Tile.Empty, Tile.Empty,
        Tile.Empty, Tile.Empty, Tile.Empty, Tile.Empty, Tile.Empty]⟩
      0 2).get 2 2 = some Tile.Wall) := by decide

/-- C2, amended: a placement at an offset the validity check accepted
never turns a previously-Floor cell into anything else — but only the
Rectangle-revision `canPlaceAt`, which also rejects Door overlap, protects
previously-Door cells; under `canPlaceAtFloorOnly` (lines 18-31 and
180-194) an existing Door inside the accepted box is overwritten as Wall,
as the counterexample shows.  Template-room placements preserve both. -/
theorem validated_placements_preserve_walkable :
    (∀ (h w py px : Int) (doorIx : Nat) (tiles : TileGrid), tiles.WF →
      1 ≤ h → 1 ≤ w → 0 ≤ py → 0 ≤ px →
      py + h ≤ tiles.height → px + w ≤ tiles.width →
      (doorIx < ((RectangularRoom.mk h w).validDoorsAt tiles py px).length ∨
        (RectangularRoom.mk h w).validDoorsAt tiles py px = []) →
      (RectangularRoom.mk h w).canPlaceAtFloorOnly tiles py px = true →
      ∀ r c : Int, 0 ≤ r → r < tiles.height →
        tiles.get r c = some Tile.Floor →
        ((RectangularRoom.mk h w).placeAt doorIx tiles py px).get r c =
          some Tile.Floor) ∧
    (∀ (h w py px : Int) (doorIx : Nat) (tiles : TileGrid), tiles.WF →
      1 ≤ h → 1 ≤ w → 0 ≤ py → 0 ≤ px →
      py + h ≤ tiles.height → px + w ≤ tiles.width →
      (doorIx < ((RectangularRoom.mk h w).validDoorsAt tiles py px).length ∨
        (RectangularRoom.mk h w).validDoorsAt tiles py px = []) →
      (RectangularRoom.mk h w).canPlaceAt tiles py px = true →
      ∀ r c : Int, 0 ≤ r → r < tiles.height →
        (tiles.get r c = some Tile.Floor ∨
         tiles.get r c = some Tile.Door) →
        ((RectangularRoom.mk h w).placeAt doorIx tiles py px).get r c =
          tiles.get r c) ∧
    (∀ (room : TemplateRoom) (py px : Int) (tiles : TileGrid), tiles.WF →
      0 ≤ py → 0 ≤ px →
      py + room.tiles.height ≤ tiles.height →
      px + room.tiles.width ≤ tiles.width →
      room.canPlaceAt tiles py px = true →
      ∀ r c : Int, 0 ≤ r → r < tiles.height →
        (tiles.get r c = some Tile.Floor ∨
         tiles.get r c = some Tile.Door) →
        (room.placeAt tiles py px).get r c = tiles.get r c) := by
  refine ⟨?_, ?_, ?_⟩
  · intro h w py px doorIx tiles hwf hh hw hpy hpx hyb hxb hdoorIx hcan
      r c hr hrh hfl
    have hout : (r, c) ∉ (Rectangle.mk py px h w).areaCoords :=
      fun hmem => canPlaceAtFloorOnly_no_floor hcan (r, c) hmem hfl
    rw [rectRoom_placeAt_outside_unchanged h w py px doorIx tiles hwf hh hw
      hpy hpx hyb hxb hdoorIx r c hr hrh hout]
    exact hfl
  · intro h w py px doorIx tiles hwf hh hw hpy hpx hyb hxb hdoorIx hcan
      r c hr hrh hwalk
    have hout : (r, c) ∉ (Rectangle.mk py px h w).areaCoords := by
      intro hmem
      have := canPlaceAt_no_walkable hcan (r, c) hmem
      rcases hwalk with hfl | hdr
      · exact this.1 hfl
      · exact this.2 hdr
    exact rectRoom_placeAt_outside_unchanged h w py px doorIx tiles hwf hh
      hw hpy hpx hyb hxb hdoorIx r c hr hrh hout
  · intro room py px tiles hwf hpy hpx hyb hxb hcan r c hr hrh hwalk
    exact templateRoom_placeAt_preserves_walkable room py px tiles hwf hpy
      hpx hyb hxb hcan r c hr hrh hwalk

/-- Witness for C2 on the counterexample grid: the placement that loses
the Door still preserves the Floor at (1, 1). -/
theorem validated_placements_preserve_walkable_witness :
    ((RectangularRoom.mk 3 3).placeAt 0
      ⟨5, 5, [Tile.Empty, Tile.Empty, Tile.Empty, Tile.Empty, Tile.Empty,
        Tile.Empty, Tile.Floor, Tile.Empty, Tile.Empty, Tile.Empty,
        Tile.Empty, Tile.Empty, Tile.Door, Tile.Empty, Tile.Empty,
        Tile.Empty, Tile.Empty, Tile.Empty, Tile.Empty, Tile.Empty,
        Tile.Empty, Tile.Empty, Tile.Empty, Tile.Empty, Tile.Empty]⟩
      0 2).get 1 1 = some Tile.Floor :=
  validated_placements_preserve_walkable.1 3 3 0 2 0
    ⟨5, 5, [Tile.Empty, Tile.Empty, Tile.Empty, Tile.Empty, Tile.Empty,
      Tile.Empty, Tile.Floor, Tile.Empty, Tile.Empty, Tile.Empty,
      Tile.Empty, Tile.Empty, Tile.Door, Tile.Empty, Tile.Empty,
      Tile.Empty, Tile.Empty, Tile.Empty, Tile.Empty, Tile.Empty,
      Tile.Empty, Tile.Empty, Tile.Empty, Tile.Empty, Tile.Empty]⟩ rfl
    (by decide) (by decide) (by decide) (by decide) (by decide) (by decide)
    (Or.inl (by decide)) (by decide) 1 1 (by decide) (by decide)
    (by decide)

----------------------------------------------------------------------
-- C7: the dimensions of the generated grid
----------------------------------------------------------------------

/-- The tile grid `LevelGenerator.generate` allocates
(src/LevelGeneration/LevelGeneration.ts line 113):
`Array2D.comprehension(this.height, this.width, () => new Tile())`. -/
def lgInitialTiles (height width : Nat) : TileGrid :=
  Array2D.comprehension height width (fun _ _ => Tile.Empty)

/-- A fold whose every step keeps the pre-dungeon dimensions keeps them. -/
theorem pd_foldl_dims {α : Type} (step : PreDungeon → α → PreDungeon)
    (hstep : ∀ pd a, (step pd a).height = pd.height ∧
      (step pd a).width = pd.width) :
    ∀ (l : List α) (pd : PreDungeon),
      (l.foldl step pd).height = pd.height ∧
      (l.foldl step pd).width = pd.width := by
  intro l
  induction l with
  | nil => exact fun pd => ⟨rfl, rfl⟩
  | cons a t ih =>
    intro pd
    rw [List.foldl_cons]
    obtain ⟨h1, h2⟩ := ih (step pd a)
    obtain ⟨h3, h4⟩ := hstep pd a
    exact ⟨h1.trans h3, h2.trans h4⟩

theorem setFloor_dims (pd : PreDungeon) (y x : Int) :
    (pd.setFloor y x).height = pd.height ∧
    (pd.setFloor y x).width = pd.width :=
  ⟨Array2D.set_height _ _ _ _, Array2D.set_width _ _ _ _⟩

theorem placeHallray_dims (pd : PreDungeon) (y x : Int) (dir : Int × Int)
    (len : Nat) :
    (placeHallray pd y x dir len).height = pd.height ∧
    (placeHallray pd y x dir len).width = pd.width := by
  unfold placeHallray
  exact pd_foldl_dims _
    (fun pd2 (c : Int × Int) => setFloor_dims pd2 c.1 c.2) _ pd

/-- Every room placement keeps the pre-dungeon dimensions. -/
theorem PDRoom.placeAt_dims (r : PDRoom) (choice : Nat) (pd : PreDungeon)
    (y x : Int) :
    (r.placeAt choice pd y x).height = pd.height ∧
    (r.placeAt choice pd y x).width = pd.width := by
  cases r with
  | rect room =>
    unfold PDRoom.placeAt PDRectRoom.placeAt
    dsimp only
    have hmid :
        ∀ pd1 : PreDungeon, pd1.height = pd.height → pd1.width = pd.width →
        ((((Rectangle.mk y x room.height room.width).enlarge (-2)
          (-2)).areaCoords.foldl
          (fun pd2 c => pd2.setFloor c.1 c.2) pd1).height = pd.height ∧
        (((Rectangle.mk y x room.height room.width).enlarge (-2)
          (-2)).areaCoords.foldl
          (fun pd2 c => pd2.setFloor c.1 c.2) pd1).width = pd.width) := by
      intro pd1 h1 h2
      obtain ⟨h3, h4⟩ := pd_foldl_dims _
        (fun pd2 (c : Int × Int) => setFloor_dims pd2 c.1 c.2)
        ((Rectangle.mk y x room.height room.width).enlarge (-2)
          (-2)).areaCoords pd1
      exact ⟨h3.trans h1, h4.trans h2⟩
    split
    · exact hmid _ rfl rfl
    · split
      · rename_i heq
        obtain ⟨h1, h2⟩ := placeHallray_dims pd _ _ _ _
        exact hmid _ h1 h2
      · exact hmid _ rfl rfl
  | templ room =>
    unfold PDRoom.placeAt PDTemplateRoom.placeAt
    dsimp only
    have hstep1 : ∀ (pd2 : PreDungeon) (c : Int × Int),
        ((fun pd2 (c : Int × Int) =>
          match room.tiles.get c.1 c.2 with
          | some t =>
              if isHallwayTile t then
                if isValidHallray pd2 (c.1 + y) (c.2 + x)
                    (templateHallwayDir t) room.maxHallwayLength then
                  match hallrayLength pd2 (c.1 + y) (c.2 + x)
                      (templateHallwayDir t) with
                  | some len => placeHallray pd2 (c.1 + y) (c.2 + x)
                      (templateHallwayDir t) len
                  | none => pd2
                else pd2
              else pd2
          | none => pd2) pd2 c).height = pd2.height ∧
        ((fun pd2 (c : Int × Int) =>
          match room.tiles.get c.1 c.2 with
          | some t =>
              if isHallwayTile t then
                if isValidHallray pd2 (c.1 + y) (c.2 + x)
                    (templateHallwayDir t) room.maxHallwayLength then
                  match hallrayLength pd2 (c.1 + y) (c.2 + x)
                      (templateHallwayDir t) with
                  | some len => placeHallray pd2 (c.1 + y) (c.2 + x)
                      (templateHallwayDir t) len
                  | none => pd2
                else pd2
              else pd2
          | none => pd2) pd2 c).width = pd2.width := by
      intro pd2 c
      dsimp only
      rcases room.tiles.get c.1 c.2 with - | t
      · exact ⟨rfl, rfl⟩
      · dsimp only
        split
        · split
          · rcases hallrayLength pd2 (c.1 + y) (c.2 + x)
              (templateHallwayDir t) with - | len
            · exact ⟨rfl, rfl⟩
            · exact placeHallray_dims pd2 _ _ _ _
          · exact ⟨rfl, rfl⟩
        · exact ⟨rfl, rfl⟩
    have hstep2 : ∀ (pd2 : PreDungeon) (c : Int × Int),
        ((fun pd2 (c : Int × Int) =>
          if room.tiles.get c.1 c.2 == some TemplateTile.Floor then
            pd2.setFloor (c.1 + y) (c.2 + x)
          else pd2) pd2 c).height = pd2.height ∧
        ((fun pd2 (c : Int × Int) =>
          if room.tiles.get c.1 c.2 == some TemplateTile.Floor then
            pd2.setFloor (c.1 + y) (c.2 + x)
          else pd2) pd2 c).width = pd2.width := by
      intro pd2 c
      dsimp only
      split
      · exact setFloor_dims pd2 _ _
      · exact ⟨rfl, rfl⟩
    obtain ⟨h1, h2⟩ := pd_foldl_dims _ hstep1
      (Rectangle.mk 0 0 room.tiles.height room.tiles.width).areaCoords pd
    obtain ⟨h3, h4⟩ := pd_foldl_dims _ hstep2
      (Rectangle.mk 0 0 room.tiles.height room.tiles.width).areaCoords _
    exact ⟨h3.trans h1, h4.trans h2⟩

/-- C7: `LevelGenerator.generate` allocates its tile grid with the
configured height and width; but `PreDungeonGen.generate` constructs
`new PreDungeon(this.width, this.height)` — the constructor arguments
swapped — and placements never change the dimensions, so every
pre-dungeon generated from a configuration with height 3 and width 5 has
height 5 and width 3, never the configured 3 by 5. -/
theorem generate_grid_dimensions :
    (∀ height width : Nat, (lgInitialTiles height width).height = height ∧
      (lgInitialTiles height width).width = width) ∧
    (∀ (cfgHeight cfgWidth n : Nat) (pd : PreDungeon),
      PDAfterRooms cfgHeight cfgWidth n pd →
      pd.height = cfgWidth ∧ pd.width = cfgHeight) ∧
    (∀ (n : Nat) (pd : PreDungeon), PDAfterRooms 3 5 n pd →
      ¬ (pd.height = 3 ∧ pd.width = 5)) := by
  have hmain : ∀ (cfgHeight cfgWidth n : Nat) (pd : PreDungeon),
      PDAfterRooms cfgHeight cfgWidth n pd →
      pd.height = cfgWidth ∧ pd.width = cfgHeight := by
    intro cfgHeight cfgWidth n pd h
    induction h with
    | start => exact ⟨rfl, rfl⟩
    | forced r choice pos hprev hpos ih =>
      obtain ⟨h1, h2⟩ := PDRoom.placeAt_dims r choice _ pos.1 pos.2
      exact ⟨h1.trans ih.1, h2.trans ih.2⟩
    | placed r choice pos hprev hpos hcan ih =>
      obtain ⟨h1, h2⟩ := PDRoom.placeAt_dims r choice _ pos.1 pos.2
      exact ⟨h1.trans ih.1, h2.trans ih.2⟩
    | skipped hprev ih => exact ih
  refine ⟨fun height width => ⟨rfl, rfl⟩, hmain, ?_⟩
  intro n pd h hcon
  obtain ⟨h1, h2⟩ := hmain 3 5 n pd h
  rw [hcon.1] at h1
  exact absurd h1 (by decide)

/-- Witness for C7 at the freshly constructed pre-dungeon of the
height-3, width-5 configuration. -/
theorem generate_grid_dimensions_witness :
    (PreDungeon.make 5 3).height = 5 ∧ (PreDungeon.make 5 3).width = 3 :=
  generate_grid_dimensions.2.1 3 5 0 (PreDungeon.make 5 3)
    PDAfterRooms.start

----------------------------------------------------------------------
-- C1: connectivity of the walkable set
----------------------------------------------------------------------

/-- A 1 by 1 template room consisting of a single floor cell, as
`parseTemplateRoom` produces for the one-character blueprint of a dot. -/
def pdC1Template : PDTemplateRoom := ⟨⟨1, 1, [TemplateTile.Floor]⟩, 1⟩

/-- A hallway-capable 3 by 3 rectangular room with maximum hallway
length 3. -/
def pdC1Room : PDRoom := PDRoom.rect ⟨3, 3, 3⟩

/-- The pre-dungeon after the forced first room: a single floor at
(0, 2) on the 7-row, 6-column grid of the height-6, width-7
configuration. -/
def pdC1Mid : PreDungeon :=
  (PDRoom.templ pdC1Template).placeAt 0 (PreDungeon.make 7 6) 0 2

/-- The pre-dungeon after the second, `canPlaceAt`-validated room. -/
def pdC1Final : PreDungeon := pdC1Room.placeAt 0 pdC1Mid 3 0

/-- C1: the walkable set of a generated level need not be connected.  In
the state `pdC1Mid` (reachable by force-placing the one-floor template
room at (0, 2)), the 3 by 3 hallway room at offset (3, 0) passes
`canPlaceAt`: its only accepted hallway start is the bottom-edge cell
(5, 1) ray-casting south, whose ray stops at the bottom row because
`isFloorAdjacent(6, 1)` reads the out-of-bounds cell (7, 1) — which
aliases the floor at (0, 2) in the column-major store.  The placement
lays the corridor (5, 1)-(6, 1) and the interior floor (4, 1) connected
to nothing: the resulting reachable state has the floor (0, 2) in one
component and (4, 1) in another, so not every walkable cell reaches every
other by 4-directional walkable steps. -/
theorem connectivity_invariant_violated :
    PDAfterRooms 6 7 2 pdC1Final ∧
    pdC1Room.canPlaceAt pdC1Mid 3 0 = true ∧
    pdC1Final.isFloor 0 2 = true ∧
    pdC1Final.isFloor 4 1 = true ∧
    ¬ Relation.ReflTransGen (pdAdjStep pdC1Final) (4, 1) (0, 2) ∧
    ¬ pdConnected pdC1Final := by
  have hmain : ¬ Relation.ReflTransGen (pdAdjStep pdC1Final) (4, 1) (0, 2) :=
    ?_
  refine ⟨?_, by decide, by decide, by decide, hmain, ?_⟩
  · have h1 : PDAfterRooms 6 7 1 pdC1Mid :=
      PDAfterRooms.forced (PDRoom.templ pdC1Template) 0 (0, 2)
        PDAfterRooms.start (by decide)
    exact PDAfterRooms.placed pdC1Room 0 (3, 0) h1 (by decide) (by decide)
  · intro hcon
    exact hmain (hcon (4, 1) (0, 2) (by decide) (by decide) (by decide)
      (by decide))
  · have hS : ∀ a b : Int × Int, pdAdjStep pdC1Final a b →
        a ∈ [((4 : Int), (1 : Int)), (5, 1), (6, 1)] →
        b ∈ [((4 : Int), (1 : Int)), (5, 1), (6, 1)] := by
      rintro a b ⟨hba, hbb, hfa, hfb, hstep⟩ ha
      fin_cases ha <;> rcases hstep with h | h | h | h <;> subst h <;>
        revert hbb hfb <;> decide
    have hreach : ∀ b : Int × Int,
        Relation.ReflTransGen (pdAdjStep pdC1Final) (4, 1) b →
        b ∈ [((4 : Int), (1 : Int)), (5, 1), (6, 1)] := by
      intro b h
      induction h with
      | refl => decide
      | tail h1 h2 ih => exact hS _ _ h2 ih
    intro hcon
    have hmem := hreach _ hcon
    revert hmem
    decide

end VRRogue
